import Mathlib

/-!
# Verification of the SentinelSitesForNature field-data ingestion script

This file is a shallow embedding of `Field Data Ingestion/ingest.py` into
Lean 4, together with theorems settling the specification claims about it.

The Python string and `pathlib` primitives the script uses are modelled
over `List Char` / lists of path segments with structural (or fuel-based)
recursion so that every definition is executable and kernel-reducible.
ASCII semantics are assumed throughout (the script's inputs are ASCII
device-folder names, flags and extensions); Python's Unicode refinements
of `lower`/`upper`/`isdigit`/`strip` are out of scope.
-/

namespace Ingest

/-! ## Python string primitives -/

/-- Python whitespace test for `str.strip()` (ASCII subset). -/
def isSpaceChar (c : Char) : Bool :=
  c = ' ' || c = '\t' || c = '\n' || c = '\r'

/-- Python `str.strip()` with no argument: drop whitespace from both ends. -/
def pyStrip (xs : List Char) : List Char :=
  ((xs.dropWhile isSpaceChar).reverse.dropWhile isSpaceChar).reverse

/-- Python `str.strip(c)` for a single strip character (used as `.strip("/")`):
drop every copy of `c` from both ends. -/
def pyStripChar (c : Char) (xs : List Char) : List Char :=
  ((xs.dropWhile (fun a => a = c)).reverse.dropWhile (fun a => a = c)).reverse

/-- Python `str.replace(a, b)` for one-character patterns (the script only
replaces the single characters `"-"` and `" "`). -/
def pyReplaceChar (a b : Char) (xs : List Char) : List Char :=
  xs.map (fun c => if c = a then b else c)

/-- Helper for `pySplit`: fuel-based so that it is structurally recursive
and kernel-reducible.  With `fuel ≥ length of the input + 1` and a
nonempty separator it computes Python's `str.split(sep)`. -/
def pySplitGo (sep : List Char) : Nat → List Char → List Char → List (List Char)
  | 0, rest, acc => [acc.reverse ++ rest]
  | _ + 1, [], acc => [acc.reverse]
  | fuel + 1, c :: rest, acc =>
    if sep ≠ [] ∧ sep.isPrefixOf (c :: rest) then
      acc.reverse :: pySplitGo sep fuel ((c :: rest).drop sep.length) []
    else
      pySplitGo sep fuel rest (c :: acc)

/-- Python `str.split(sep)` for a nonempty separator: non-overlapping,
left-to-right splitting, keeping empty segments. -/
def pySplit (sep xs : List Char) : List (List Char) :=
  pySplitGo sep (xs.length + 1) xs []

/-- Python `str.isdigit()` (ASCII digits): nonempty and all digits. -/
def pyIsDigit (xs : List Char) : Bool :=
  !xs.isEmpty && xs.all Char.isDigit

/-- Python `str.zfill(w)` on an unsigned string: left-pad with `'0'`. -/
def zfill (w : Nat) (xs : List Char) : List Char :=
  List.replicate (w - xs.length) '0' ++ xs

/-- Python `str.lower()` (ASCII). -/
def pyLower (xs : List Char) : List Char := xs.map Char.toLower

/-- Python `str.upper()` (ASCII). -/
def pyUpper (xs : List Char) : List Char := xs.map Char.toUpper

/-- Python `low.split(sep)[1]`, defined for the guarded call sites of
`norm_device_label`, where `low` is known to start with `sep` (so index 1
exists); out of that range the default `[]` is returned. -/
def pySplitIdx1 (sep xs : List Char) : List Char :=
  (pySplit sep xs).getD 1 []

/-! ## `norm_device_label` and `guess_device_type` (ingest.py lines 42-67) -/

/-- Python `norm_device_label`: normalize a device folder name to a safe label,
transcribed branch by branch from `ingest.py` lines 42-61. -/
def norm_device_label (name : String) : String :=
  let n := pyReplaceChar '-' '_' (pyStrip name.data)
  let low := pyLower n
  if "camera_".data.isPrefixOf low then
    let tail := pySplitIdx1 "camera_".data low
    String.mk ("CAM".data ++ (if pyIsDigit tail then zfill 2 tail else pyUpper tail))
  else if "aru_".data.isPrefixOf low then
    let tail := pySplitIdx1 "aru_".data low
    String.mk ("ARU".data ++ (if pyIsDigit tail then zfill 2 tail else pyUpper tail))
  else if "camera".data.isPrefixOf low then
    let tail0 := pySplitIdx1 "camera".data low
    let tail := if "_".data.isPrefixOf tail0 then tail0.drop 1 else tail0
    String.mk ("CAM".data ++ (if pyIsDigit tail then zfill 2 tail else pyUpper tail))
  else if "aru".data.isPrefixOf low then
    let tail0 := pySplitIdx1 "aru".data low
    let tail := if "_".data.isPrefixOf tail0 then tail0.drop 1 else tail0
    String.mk ("ARU".data ++ (if pyIsDigit tail then zfill 2 tail else pyUpper tail))
  else
    String.mk (pyReplaceChar ' ' '_' n)

/-- Python `guess_device_type` (ingest.py lines 63-67). -/
def guess_device_type (label : String) : String :=
  let up := pyUpper label.data
  if "CAM".data.isPrefixOf up then "camera"
  else if "ARU".data.isPrefixOf up then "aru"
  else "unknown"

/-! ## `pathlib` model

A `PyPath` is a POSIX `pathlib.PurePath` reduced to what the script
observes: whether the path is absolute, and its list of segments
(`parts` without the root).  `pathlib` drops empty and `"."` components
when parsing a string. -/

structure PyPath where
  absolute : Bool
  segs : List String
deriving DecidableEq, Repr

/-- Python `Path(s)` for a POSIX path string. -/
def pathOfString (s : String) : PyPath :=
  { absolute := "/".data.isPrefixOf s.data
    segs := ((pySplit "/".data s.data).map String.mk).filter
      (fun t => t ≠ "" && t ≠ ".") }

/-- Python `p.joinpath(q)` / `p / q`: an absolute right operand replaces the
left one. -/
def joinpath (p q : PyPath) : PyPath :=
  if q.absolute then q else { absolute := p.absolute, segs := p.segs ++ q.segs }

/-- Python `p.joinpath(q₁, q₂, …)`. -/
def joinList (p : PyPath) (qs : List PyPath) : PyPath :=
  qs.foldl joinpath p

/-- Python `make_staging_root` (ingest.py lines 98-101); the string arguments are
converted to paths by `joinpath` exactly as `pathlib` does. -/
def make_staging_root (staging_base sdsC_root : PyPath)
    (year reserve site deployment : String) : PyPath :=
  joinList staging_base
    [sdsC_root, pathOfString year, pathOfString reserve, pathOfString site,
     pathOfString ("Deployment_" ++ deployment)]

/-- Year derivation (ingest.py line 140): the first four characters of the
deployment id when there are at least four and they are all digits,
otherwise the current year (passed in, since real time is not modelled). -/
def deriveYear (deployment currentYear : String) : String :=
  if deployment.data.length ≥ 4 ∧ pyIsDigit (deployment.data.take 4) then
    String.mk (deployment.data.take 4)
  else currentYear

/-- Python `args.sdsC_root.strip("/")` then `Path(...)` (ingest.py line 143). -/
def sdsCRootPath (s : String) : PyPath :=
  pathOfString (String.mk (pyStripChar '/' s.data))

/-! ## Filesystem model

The filesystem is an association list from absolute paths (segment lists)
to entries.  Only regular files and symbolic links are tracked;
directories are not, since `mkdir` calls never affect any claim (the
script only ever creates directories with `exist_ok=True`). -/

inductive FileData where
  | bytes (bs : List Nat)
  | text (s : String)
deriving DecidableEq, Repr

inductive Entry where
  | file (d : FileData)
  | symlink (target : List String)
deriving DecidableEq, Repr

abbrev FS := List (List String × Entry)

def fsGet : FS → List String → Option Entry
  | [], _ => none
  | kv :: rest, p => if kv.1 = p then some kv.2 else fsGet rest p

def fsRemove : FS → List String → FS
  | [], _ => []
  | kv :: rest, p => if kv.1 = p then fsRemove rest p else kv :: fsRemove rest p

def fsSet (fs : FS) (p : List String) (e : Entry) : FS :=
  (p, e) :: fsRemove fs p

/-- Resolve a path through symlinks to file data (fuel-bounded; a cycle or
a dangling link resolves to nothing, as `Path.exists()` reports). -/
def resolveData (fs : FS) : Nat → List String → Option FileData
  | 0, _ => none
  | fuel + 1, p =>
    match fsGet fs p with
    | some (Entry.file d) => some d
    | some (Entry.symlink t) => resolveData fs fuel t
    | none => none

/-- Python `Path.exists()`: follows symlinks, so a dangling symlink does not
"exist". -/
def pathExists (fs : FS) (p : List String) : Bool :=
  (resolveData fs (fs.length + 1) p).isSome

/-- Python `os.symlink(target, dest)`: raises `FileExistsError` when any entry —
including a dangling symlink — already sits at `dest`. -/
def os_symlink (fs : FS) (target dest : List String) : Except String FS :=
  match fsGet fs dest with
  | some _ => Except.error "FileExistsError"
  | none => Except.ok (fsSet fs dest (Entry.symlink target))

/-- Python `shutil.copy2(src, dest)` with the source bytes in hand: places a
regular file at `dest` (overwriting).  Writing through a pre-existing
symlink at `dest` is not modelled; the theorems that use copy mode start
from a staging subtree with no entries. -/
def shutil_copy2 (fs : FS) (d : FileData) (dest : List String) : FS :=
  fsSet fs dest (Entry.file d)

/-- Python `open(p, "a")` followed by a write: append to an existing text file,
or create the file. -/
def appendText (fs : FS) (p : List String) (s : String) : FS :=
  match fsGet fs p with
  | some (Entry.file (FileData.text old)) =>
      fsSet fs p (Entry.file (FileData.text (old ++ s)))
  | _ => fsSet fs p (Entry.file (FileData.text s))

/-! ## Input model

The walk input (`os.walk` over a device folder) is presented as data: a
device folder is an `InputChild` carrying, for each regular file found by
the walk, its path relative to the device folder, its byte content, and
whether `stat`/`sha256_file` succeed on it (these wrap real syscalls whose
failures the script catches).  Source file contents are read from this
record; the theorems that compare staged data with sources additionally
require the sources to lie outside the staging subtree, the script's
intended usage. -/

structure SrcFile where
  rel : List String
  content : List Nat
  statOk : Bool
  size : Nat
  mtime : String
  hashOk : Bool
deriving DecidableEq, Repr

structure InputChild where
  name : String
  isDir : Bool
  files : List SrcFile
deriving DecidableEq, Repr

/-- Lexicographic comparison of strings by character code, as `sorted()`
orders the paths returned by `iterdir()`. -/
def charListLe : List Char → List Char → Bool
  | [], _ => true
  | _ :: _, [] => false
  | a :: as, b :: bs => if a < b then true else if b < a then false else charListLe as bs

def insertByName (x : InputChild) : List InputChild → List InputChild
  | [] => [x]
  | y :: ys =>
    if charListLe x.name.data y.name.data then x :: y :: ys
    else y :: insertByName x ys

/-- Python `sorted(input_dir.iterdir())` (ingest.py line 83). -/
def sortChildren : List InputChild → List InputChild
  | [] => []
  | x :: xs => insertByName x (sortChildren xs)

def DEVICE_PREFIXES : List String := ["camera_", "aru_", "Camera", "ARU"]

/-- The guard on ingest.py line 87:
`name.lower().startswith(DEVICE_PREFIXES) or any(name.lower().startswith(p)
for p in [p.lower() for p in DEVICE_PREFIXES])`. -/
def devicePrefixMatch (name : String) : Bool :=
  let low := pyLower name.data
  DEVICE_PREFIXES.any (fun p => p.data.isPrefixOf low)
    || DEVICE_PREFIXES.any (fun p => (pyLower p.data).isPrefixOf low)

/-- Python `discover_devices` (ingest.py lines 76-96): every immediate
subdirectory becomes a device; those matching a known prefix get a
guessed type, the rest are typed `"unknown"`. -/
def discover_devices (children : List InputChild) :
    List (InputChild × String × String) :=
  (sortChildren children).filterMap fun child =>
    if !child.isDir then none
    else if devicePrefixMatch child.name then
      let label := norm_device_label child.name
      some (child, label, guess_device_type label)
    else
      some (child, norm_device_label child.name, "unknown")

/-! ## Per-file metadata -/

def IMAGE_EXTS : List String := [".jpg", ".jpeg", ".png", ".cr2", ".nef", ".arw", ".dng"]
def AUDIO_EXTS : List String := [".wav", ".flac"]
def VIDEO_EXTS : List String := [".mp4", ".mov", ".avi"]

/-- Index of the last occurrence of `c` (`str.rfind`). -/
def lastIndexOf (c : Char) (cs : List Char) : Option Nat :=
  match cs.reverse.findIdx? (fun a => a == c) with
  | none => none
  | some j => some (cs.length - 1 - j)

/-- Python `PurePath.suffix` of a file name: the part from the last dot on,
empty when the name has no dot, starts with its only dot, or ends with
the dot. -/
def pySuffix (name : String) : String :=
  match lastIndexOf '.' name.data with
  | none => ""
  | some i =>
    if 0 < i ∧ i < name.data.length - 1 then String.mk (name.data.drop i) else ""

/-- Python `determine_media_class` (ingest.py lines 109-116), applied to the file
name (the suffix of a path is the suffix of its last component). -/
def determine_media_class (fname : String) : String :=
  let ext := String.mk (pyLower (pySuffix fname).data)
  if IMAGE_EXTS.contains ext then "image"
  else if AUDIO_EXTS.contains ext then "audio"
  else if VIDEO_EXTS.contains ext then "video"
  else "other"

/-- The segments of `path.relative_to(start)` when `start` is a prefix,
else the path itself (the fallback branch of `safe_relpath`). -/
def relSegsOf (p start : List String) : List String :=
  if start.isPrefixOf p then p.drop start.length else p

/-- Python `safe_relpath` (ingest.py lines 103-107) as the string the script
stores (the staged paths always have the staging root as a prefix). -/
def safe_relpath (p start : List String) : String :=
  String.intercalate "/" (relSegsOf p start)

/-- Rendering of an absolute path as a string (`str(src)`). -/
def pathStr (p : List String) : String :=
  "/" ++ String.intercalate "/" p

def lastSeg (xs : List String) : String :=
  match xs.reverse with
  | [] => ""
  | x :: _ => x

/-! ## The main loop (ingest.py lines 132-260) -/

inductive Mode where
  | symlink | copy | plan
deriving DecidableEq, Repr

def modeStr : Mode → String
  | Mode.symlink => "symlink"
  | Mode.copy => "copy"
  | Mode.plan => "plan"

structure Args where
  input : List String
  reserve : String
  site : String
  deployment : String
  staging : PyPath
  sdsCRoot : String
  mode : Mode
  computeHash : Bool
deriving DecidableEq, Repr

/-- One inventory row (ingest.py lines 215-226); the empty-string
size/mtime written after a stat failure is encoded as `none`. -/
structure Row where
  relative_path : String
  device_label : String
  device_type : String
  media_class : String
  size_bytes : Option Nat
  mtime_utc : Option String
  reserve : String
  site : String
  deployment : String
  source_abspath : List String
deriving DecidableEq, Repr

/-- Everything the loop prints: duplicate-filename warnings (line 208)
and hash-failure errors (line 235).  A stat failure prints nothing. -/
inductive LogEvent where
  | dupWarn (label fname : String)
  | hashErr (src : List String)
deriving DecidableEq, Repr

structure RunState where
  fs : FS
  rows : List Row
  manifest : List (Nat × List String)
  dupKeys : List (String × String)
  log : List LogEvent
  problems : Nat
deriving Repr

/-- The place-the-file step (ingest.py lines 182-191).  A raised
`FileExistsError` from `os.symlink` is uncaught in the script and aborts
the run, hence the `Except`. -/
def placeFile (mode : Mode) (fs : FS) (content : List Nat)
    (src dest : List String) : Except String FS :=
  match mode with
  | Mode.copy => Except.ok (shutil_copy2 fs (FileData.bytes content) dest)
  | Mode.symlink =>
      -- `if dest.exists(): dest.unlink()` — `exists()` follows symlinks,
      -- so a dangling symlink at `dest` is not removed and `os.symlink`
      -- then raises
      let fs' := if pathExists fs dest then fsRemove fs dest else fs
      os_symlink fs' src dest
  | Mode.plan => Except.ok fs

/-- The inventory row built for one file (ingest.py lines 194-226).
`src.stat()` sits in a try/except: on failure the size/mtime fields stay
empty (`none`) and nothing is printed or counted. -/
def rowOf (args : Args) (stagingRoot devicePath : List String)
    (label dtype : String) (f : SrcFile) : Row :=
  { relative_path := safe_relpath (stagingRoot ++ [label] ++ f.rel) stagingRoot
    device_label := label
    device_type := dtype
    media_class := determine_media_class (lastSeg f.rel)
    size_bytes := if f.statOk then some f.size else none
    mtime_utc := if f.statOk then some f.mtime else none
    reserve := args.reserve
    site := args.site
    deployment := args.deployment
    source_abspath := devicePath ++ f.rel }

/-- The metadata updates of the inner loop body (ingest.py lines 194-236),
applied after the file was placed with resulting filesystem `fs1`:
duplicate-key warning, inventory row, and — when hashing is on — either a
manifest entry or a logged, tallied hash failure. -/
def recordFile (hashFn : List Nat → Nat) (args : Args)
    (stagingRoot devicePath : List String) (label dtype : String)
    (f : SrcFile) (st : RunState) (fs1 : FS) : RunState :=
  let src := devicePath ++ f.rel
  let dest := stagingRoot ++ [label] ++ f.rel
  let fname := lastSeg f.rel
  let key := (label, fname)
  let log1 := if key ∈ st.dupKeys then st.log ++ [LogEvent.dupWarn label fname] else st.log
  let dup1 := if key ∈ st.dupKeys then st.dupKeys else key :: st.dupKeys
  let rows1 := st.rows ++ [rowOf args stagingRoot devicePath label dtype f]
  if args.computeHash then
    -- the `src.is_file()` re-check holds in the model (the walk listed it)
    if f.hashOk then
      { fs := fs1, rows := rows1, dupKeys := dup1, log := log1,
        manifest := st.manifest ++ [(hashFn f.content, relSegsOf dest stagingRoot)],
        problems := st.problems }
    else
      { fs := fs1, rows := rows1, dupKeys := dup1,
        log := log1 ++ [LogEvent.hashErr src],
        manifest := st.manifest, problems := st.problems + 1 }
  else
    { fs := fs1, rows := rows1, dupKeys := dup1, log := log1,
      manifest := st.manifest, problems := st.problems }

/-- The body of the inner loop of `main` (ingest.py lines 170-236) for one
source file.  `hashFn` abstracts SHA-256: the claims depend only on the
hash being a function of the content.
`dest.parent.mkdir(parents=True, exist_ok=True)`: directories untracked. -/
def processFile (hashFn : List Nat → Nat) (args : Args)
    (stagingRoot devicePath : List String) (label dtype : String)
    (st : RunState) (f : SrcFile) : Except String RunState :=
  match placeFile args.mode st.fs f.content (devicePath ++ f.rel)
      (stagingRoot ++ [label] ++ f.rel) with
  | Except.error e => Except.error e
  | Except.ok fs1 =>
      Except.ok (recordFile hashFn args stagingRoot devicePath label dtype f st fs1)

def processFiles (hashFn : List Nat → Nat) (args : Args)
    (stagingRoot devicePath : List String) (label dtype : String) :
    RunState → List SrcFile → Except String RunState
  | st, [] => Except.ok st
  | st, f :: rest => do
    processFiles hashFn args stagingRoot devicePath label dtype
      (← processFile hashFn args stagingRoot devicePath label dtype st f) rest

def processDevices (hashFn : List Nat → Nat) (args : Args)
    (stagingRoot : List String) :
    RunState → List (InputChild × String × String) → Except String RunState
  | st, [] => Except.ok st
  | st, (child, label, dtype) :: rest => do
    -- `dest_device_dir.mkdir(...)`: directories untracked
    processDevices hashFn args stagingRoot
      (← processFiles hashFn args stagingRoot (args.input ++ [child.name])
            label dtype st child.files) rest

/-! ## A flattened view of the nested device/file loops

`processDevices` iterates devices and, inside, files.  For reasoning we
flatten the two nested folds into one fold over "jobs"; the fusion lemma
`processDevices_eq_processJobs` below proves the two agree, so every
theorem about `processJobs` is a theorem about the script's loop. -/

structure Job where
  devicePath : List String
  label : String
  dtype : String
  file : SrcFile
deriving DecidableEq, Repr

def Job.src (j : Job) : List String := j.devicePath ++ j.file.rel

def Job.dest (root : List String) (j : Job) : List String :=
  root ++ [j.label] ++ j.file.rel

def Job.key (j : Job) : String × String := (j.label, lastSeg j.file.rel)

def jobsOfDevice (args : Args) (d : InputChild × String × String) : List Job :=
  d.1.files.map (fun f => ⟨args.input ++ [d.1.name], d.2.1, d.2.2, f⟩)

def jobsOf (args : Args) (devices : List (InputChild × String × String)) : List Job :=
  match devices with
  | [] => []
  | d :: ds => jobsOfDevice args d ++ jobsOf args ds

def processJobs (hashFn : List Nat → Nat) (args : Args) (stagingRoot : List String) :
    RunState → List Job → Except String RunState
  | st, [] => Except.ok st
  | st, j :: js =>
    match processFile hashFn args stagingRoot j.devicePath j.label j.dtype st j.file with
    | Except.error e => Except.error e
    | Except.ok st' => processJobs hashFn args stagingRoot st' js

/-- Number of files whose hashing fails and is tallied (zero when hashing
is off). -/
def countHashFail (args : Args) (jobs : List Job) : Nat :=
  if args.computeHash then (jobs.filter (fun j => !j.file.hashOk)).length else 0

def isHashErr : LogEvent → Bool
  | LogEvent.hashErr _ => true
  | _ => false

def isDupWarn : LogEvent → Bool
  | LogEvent.dupWarn _ _ => true
  | _ => false

/-- How many walked files fall on a given duplicate-detection key. -/
def keyCount (jobs : List Job) (k : String × String) : Nat :=
  (jobs.filter (fun j => j.key = k)).length

/-- The manifest entries contributed by a list of jobs (hashing on):
one per hash-able file, pairing the content hash with the staged
relative path. -/
def manifestOf (hashFn : List Nat → Nat) (args : Args) (jobs : List Job) : List (Nat × List String) :=
  if args.computeHash then
    (jobs.filter (fun j => j.file.hashOk)).map
      (fun j => (hashFn j.file.content, [j.label] ++ j.file.rel))
  else []

/-! ## Artifact rendering (ingest.py lines 238-260)

CSV quoting and the `csv` module's `\r\n` row terminator are not
modelled — no claim inspects the CSV text beyond its existence. -/

def inv_fields : List String :=
  ["relative_path", "device_label", "device_type", "media_class",
   "size_bytes", "mtime_utc", "reserve", "site", "deployment", "source_abspath"]

def renderRow (r : Row) : String :=
  String.intercalate ","
    [r.relative_path, r.device_label, r.device_type, r.media_class,
     (match r.size_bytes with | some n => toString n | none => ""),
     (match r.mtime_utc with | some s => s | none => ""),
     r.reserve, r.site, r.deployment, pathStr r.source_abspath]

def renderCSV (rows : List Row) : String :=
  String.intercalate "\n" (String.intercalate "," inv_fields :: rows.map renderRow) ++ "\n"

/-- One manifest line: `f"{digest}  ./{relpath_from_staging_root}"` —
hash, two spaces, `./`-prefixed staged relative path.  The abstract digest
is rendered with `toString` in place of a hex string. -/
def manifestLine (digest : String) (rel : List String) : String :=
  digest ++ "  ./" ++ String.intercalate "/" rel

/-- Python `"\n".join(manifest_lines) + ("\n" if manifest_lines else "")`. -/
def renderManifest (entries : List (Nat × List String)) : String :=
  String.intercalate "\n" (entries.map (fun e => manifestLine (toString e.1) e.2))
    ++ (if entries.isEmpty then "" else "\n")

/-- The run-log line (ingest.py line 260). -/
def logLine (now : String) (args : Args) (files problems : Nat) : String :=
  "[" ++ now ++ "] input=" ++ pathStr args.input ++ " reserve=" ++ args.reserve
    ++ " site=" ++ args.site ++ " deployment=" ++ args.deployment
    ++ " mode=" ++ modeStr args.mode ++ " files=" ++ toString files
    ++ " problems=" ++ toString problems ++ "\n"

structure RunOutcome where
  stagingRoot : List String
  rows : List Row
  manifest : List (Nat × List String)
  log : List LogEvent
  problems : Nat
  finalFs : FS
  earlyExit : Bool
deriving DecidableEq, Repr

/-- The staging root the run uses (ingest.py lines 139-144): the segments
of the absolute staging path. -/
def rootOf (args : Args) (currentYear : String) : List String :=
  (make_staging_root args.staging (sdsCRootPath args.sdsCRoot)
    (deriveYear args.deployment currentYear)
    args.reserve args.site args.deployment).segs

def initState (initFs : FS) : RunState :=
  { fs := initFs, rows := [], manifest := [], dupKeys := [], log := [], problems := 0 }

/-- The outcome of the early `return` when no devices were found
(ingest.py lines 152-154): no artifact is written. -/
def earlyOutcome (root : List String) (initFs : FS) : RunOutcome :=
  { stagingRoot := root, rows := [], manifest := [], log := [],
    problems := 0, finalFs := initFs, earlyExit := true }

/-- The artifact-writing epilogue (ingest.py lines 238-260): the
inventory CSV, the manifest (only when hashing is on), and the appended
run-log line. -/
def finalizeRun (args : Args) (root : List String) (now : String)
    (st : RunState) : RunOutcome :=
  let fs1 := fsSet st.fs (root ++ ["file_inventory.csv"])
    (Entry.file (FileData.text (renderCSV st.rows)))
  let fs2 := if args.computeHash then
      fsSet fs1 (root ++ ["manifest_sha256.txt"])
        (Entry.file (FileData.text (renderManifest st.manifest)))
    else fs1
  let fs3 := appendText fs2 (root ++ ["logs", "ingest.log"])
    (logLine now args st.rows.length st.problems)
  { stagingRoot := root, rows := st.rows, manifest := st.manifest,
    log := st.log, problems := st.problems, finalFs := fs3,
    earlyExit := false }

/-- Python `main` (ingest.py lines 132-260) from after argument parsing and the
input-existence check: derive the year and staging root, discover
devices (returning early when there are none, before any artifact is
written), run the walk, then write the inventory CSV, the optional
manifest, and append the run log line.  `currentYear` and `now` stand in
for the real clock; `initFs` is the filesystem at the start of the run.
`staging_root.mkdir` / `logs_dir.mkdir`: directories untracked. -/
def runIngest (hashFn : List Nat → Nat) (args : Args) (children : List InputChild)
    (currentYear now : String) (initFs : FS) : Except String RunOutcome :=
  let root := rootOf args currentYear
  let devices := discover_devices children
  if devices.isEmpty then
    Except.ok (earlyOutcome root initFs)
  else
    match processDevices hashFn args root (initState initFs) devices with
    | Except.error e => Except.error e
    | Except.ok st => Except.ok (finalizeRun args root now st)

/-- The entry that placing one file leaves at its destination, starting
from a destination with no entry: a copied regular file, a symlink to the
source, or nothing in plan mode. -/
def expectedEntry (mode : Mode) (content : List Nat) (src : List String) : Option Entry :=
  match mode with
  | Mode.copy => some (Entry.file (FileData.bytes content))
  | Mode.symlink => some (Entry.symlink src)
  | Mode.plan => none

/-- The job (if any) whose staged destination is `q`. -/
def jobAt (root : List String) (jobs : List Job) (q : List String) : Option Job :=
  jobs.find? (fun j => j.dest root = q)

/-- What the filesystem holds at `q` after processing `jobs` over a
staging subtree in which every destination started empty. -/
def destView (mode : Mode) (root : List String) (jobs : List Job)
    (fs : FS) (q : List String) : Option Entry :=
  match jobAt root jobs q with
  | some j => expectedEntry mode j.file.content j.src
  | none => fsGet fs q

/-! ## Concrete inputs used by witnesses and counterexamples -/

/-- A concrete stand-in for SHA-256 (any content-determined digest
function witnesses the abstract `hashFn`). -/
def sampleHash (bs : List Nat) : Nat :=
  bs.foldl (fun a b => a * 257 + b + 1) 7

def mkArgs (m : Mode) (h : Bool) : Args :=
  { input := ["home", "import"], reserve := "R034", site := "S005",
    deployment := "20250905", staging := ⟨true, ["home", "staging"]⟩,
    sdsCRoot := "/expanse/projects/ucnrs-ssn/raw", mode := m,
    computeHash := h }

/-- The spec's §8 example input: a camera folder with one 10-byte photo
and an ARU folder with one 20-byte clip. -/
def twoDeviceChildren : List InputChild :=
  [ { name := "camera_01", isDir := true,
      files := [{ rel := ["photo.jpg"], content := [1, 2, 3], statOk := true,
                  size := 10, mtime := "2025-09-05T00:00:00+00:00", hashOk := true }] },
    { name := "ARU_02", isDir := true,
      files := [{ rel := ["clip.wav"], content := [4, 5], statOk := true,
                  size := 20, mtime := "2025-09-05T00:00:00+00:00", hashOk := true }] } ]

/-- One device whose single file fails `stat` but hashes fine. -/
def statFailChildren : List InputChild :=
  [ { name := "camera_01", isDir := true,
      files := [{ rel := ["photo.jpg"], content := [1, 2, 3], statOk := false,
                  size := 10, mtime := "t", hashOk := true }] } ]

/-- Two device folders that normalize to the same label `CAM01`, holding
files with the same name. -/
def dupLabelChildren : List InputChild :=
  [ { name := "camera_01", isDir := true,
      files := [{ rel := ["a.jpg"], content := [1], statOk := true,
                  size := 1, mtime := "t", hashOk := true }] },
    { name := "camera_1", isDir := true,
      files := [{ rel := ["a.jpg"], content := [2], statOk := true,
                  size := 1, mtime := "t", hashOk := true }] } ]

/-- A device folder whose name is already a normalized-looking label. -/
def camFolderChildren : List InputChild :=
  [ { name := "CAM01", isDir := true, files := [] } ]

/-- An input directory with no subdirectories at all. -/
def noDeviceChildren : List InputChild :=
  [ { name := "notes.txt", isDir := false, files := [] } ]

/-- The staged destination of `camera_01/photo.jpg` for `mkArgs`. -/
def demoDest : List String :=
  ["home", "staging", "expanse", "projects", "ucnrs-ssn", "raw",
   "2025", "R034", "S005", "Deployment_20250905", "CAM01", "photo.jpg"]

/-- A staging area holding a dangling symlink at that destination. -/
def danglingFS : FS := [(demoDest, Entry.symlink ["gone"])]

/-- An initial filesystem holding the two source files of
`twoDeviceChildren` (used where staged links must resolve). -/
def twoDeviceSrcFS : FS :=
  [ (["home", "import", "camera_01", "photo.jpg"], Entry.file (FileData.bytes [1, 2, 3])),
    (["home", "import", "ARU_02", "clip.wav"], Entry.file (FileData.bytes [4, 5])) ]

/-- A path-segment string as the spec's formula `staging_base /
remote_root / year / reserve / site / Deployment_<id>` reads it: one
nonempty, slash-free, non-`"."` component. -/
def plainSeg (s : String) : Prop :=
  s ≠ "" ∧ s ≠ "." ∧ '/' ∉ s.data

/-- Modelled on the spec's words (§4.2): "computes a single deterministic
staging root as a nested path: `staging_base / remote_root / year /
reserve / site / Deployment_<id>`", year being "derived from the first
four characters of the deployment identifier if numeric, else current
year".  This is the spec-side comparator for the refinement claim C5;
`make_staging_root`/`rootOf` above are the code-side definitions. -/
def stagingRootSpec (base remote : PyPath)
    (deployment currentYear reserve site : String) : PyPath :=
  let year := if deployment.data.length ≥ 4 ∧ pyIsDigit (deployment.data.take 4)
    then String.mk (deployment.data.take 4) else currentYear
  { absolute := base.absolute
    segs := base.segs ++ remote.segs ++
      [year, reserve, site, "Deployment_" ++ deployment] }

end Ingest

namespace Ingest

/-! ## Character and string lemmas -/

theorem digit_ne (c a : Char) (ha : a.isDigit = false) (h : c.isDigit = true) :
    c ≠ a := by
  intro e; subst e; rw [h] at ha; cases ha

theorem digit_toLower (c : Char) (h : c.isDigit = true) : c.toLower = c := by
  simp only [Char.isDigit, Bool.and_eq_true, decide_eq_true_eq] at h
  have h2 : c.toNat ≤ 57 := by
    have := UInt32.le_def.mp h.2
    simpa [Char.toNat] using this
  simp only [Char.toLower]
  split
  · omega
  · rfl

theorem digit_isSpace (c : Char) (h : c.isDigit = true) : isSpaceChar c = false := by
  have h1 := digit_ne c ' ' (by decide) h
  have h2 := digit_ne c '\t' (by decide) h
  have h3 := digit_ne c '\n' (by decide) h
  have h4 := digit_ne c '\r' (by decide) h
  simp [isSpaceChar, h1, h2, h3, h4]

theorem dropWhile_head_false (p : Char → Bool) :
    ∀ (xs : List Char) (h : Char) (t : List Char),
      xs.dropWhile p = h :: t → p h = false := by
  intro xs
  induction xs with
  | nil => intro h t he; cases he
  | cons a as ih =>
    intro h t he
    rw [List.dropWhile_cons] at he
    by_cases hp : p a = true
    · rw [if_pos hp] at he; exact ih h t he
    · rw [if_neg hp] at he
      cases he
      simpa using hp

theorem stripChar_head_ne (c : Char) (xs : List Char) (h : Char) (t : List Char)
    (he : pyStripChar c xs = h :: t) : (h = c) = False := by
  unfold pyStripChar at he
  have hpre : (h :: t) <+: (xs.dropWhile (fun a => a = c)) := by
    rw [← he]
    have hsuf : ((xs.dropWhile (fun a => a = c)).reverse.dropWhile (fun a => a = c))
        <:+ (xs.dropWhile (fun a => a = c)).reverse := List.dropWhile_suffix _
    have hrev := List.reverse_prefix.mpr hsuf
    rwa [List.reverse_reverse] at hrev
  obtain ⟨u, hu⟩ := hpre
  have := dropWhile_head_false (fun a => a = c) xs h (t ++ u) hu.symm
  simpa using this

theorem isPrefixOf_append_self (a b : List Char) : a.isPrefixOf (a ++ b) = true := by
  induction a with
  | nil => simp [List.isPrefixOf]
  | cons x xs ih => simp [List.isPrefixOf, ih]

theorem singleton_isPrefixOf_false (c : Char) (ys : List Char) (h : c ∉ ys) :
    [c].isPrefixOf ys = false := by
  cases ys with
  | nil => rfl
  | cons y t =>
    have : c ≠ y := fun e => h (e ▸ List.mem_cons_self y t)
    simp [List.isPrefixOf, this]

theorem pySplitGo_noOccur (sep : List Char) :
    ∀ (xs : List Char) (fuel : Nat) (acc : List Char),
      (∀ n, sep.isPrefixOf (xs.drop n) = false) →
      pySplitGo sep fuel xs acc = [acc.reverse ++ xs] := by
  intro xs
  induction xs with
  | nil =>
    intro fuel acc _
    cases fuel <;> simp [pySplitGo]
  | cons c rest ih =>
    intro fuel acc hno
    cases fuel with
    | zero => rfl
    | succ fuel =>
      have h0 : sep.isPrefixOf (c :: rest) = false := by simpa using hno 0
      have : ¬(sep ≠ [] ∧ sep.isPrefixOf (c :: rest) = true) := by
        intro ⟨_, hc⟩; rw [h0] at hc; cases hc
      simp only [pySplitGo, h0]
      rw [if_neg (by simp [h0])]
      rw [ih fuel (c :: acc) (fun n => by simpa using hno (n + 1))]
      simp

theorem pySplit_sep_head (sep rest : List Char) (hne : sep ≠ [])
    (hno : ∀ n, sep.isPrefixOf (rest.drop n) = false) :
    pySplit sep (sep ++ rest) = [[], rest] := by
  unfold pySplit
  cases sep with
  | nil => exact absurd rfl hne
  | cons s ss =>
    have hpre : (s :: ss).isPrefixOf (s :: ss ++ rest) = true :=
      isPrefixOf_append_self _ _
    have hstep : pySplitGo (s :: ss) ((s :: ss ++ rest).length + 1) (s :: ss ++ rest) []
        = [].reverse :: pySplitGo (s :: ss) ((s :: ss ++ rest).length)
            ((s :: ss ++ rest).drop (s :: ss).length) [] := by
      simp only [List.cons_append, List.length_cons, pySplitGo]
      rw [if_pos ⟨by simp, by simp [List.cons_append]⟩]
      rfl
    rw [hstep]
    have hdrop : (s :: ss ++ rest).drop (s :: ss).length = rest := List.drop_left _ _
    rw [hdrop]
    rw [pySplitGo_noOccur (s :: ss) rest _ [] hno]
    simp

theorem pySplit_single_noOccur (c : Char) (xs : List Char) (h : c ∉ xs) :
    pySplit [c] xs = [xs] := by
  have : pySplitGo [c] (xs.length + 1) xs [] = [[].reverse ++ xs] := by
    apply pySplitGo_noOccur
    intro n
    apply singleton_isPrefixOf_false
    intro hmem
    exact h (List.mem_of_mem_drop hmem)
  simpa [pySplit] using this

theorem String_mk_data (s : String) : String.mk s.data = s := rfl

theorem pathOfString_plain (s : String) (h : plainSeg s) :
    pathOfString s = ⟨false, [s]⟩ := by
  obtain ⟨h1, h2, h3⟩ := h
  unfold pathOfString
  have habs : "/".data.isPrefixOf s.data = false := by
    have : "/".data = ['/'] := rfl
    rw [this]
    exact singleton_isPrefixOf_false '/' s.data h3
  have hsplit : pySplit "/".data s.data = [s.data] := by
    have : "/".data = ['/'] := rfl
    rw [this]
    exact pySplit_single_noOccur '/' s.data h3
  rw [habs, hsplit]
  simp [String_mk_data, h1, h2]

/-! ## Filesystem lemmas -/

theorem fsGet_fsRemove (fs : FS) (p q : List String) :
    fsGet (fsRemove fs p) q = if q = p then none else fsGet fs q := by
  induction fs with
  | nil => simp [fsRemove, fsGet]
  | cons kv rest ih =>
    rw [fsRemove]
    by_cases h1 : kv.1 = p
    · rw [if_pos h1, ih]
      by_cases h2 : q = p
      · rw [if_pos h2, if_pos h2]
      · rw [if_neg h2, if_neg h2, fsGet,
          if_neg (fun e : kv.1 = q => h2 (e.symm.trans h1))]
    · rw [if_neg h1, fsGet]
      by_cases h2 : kv.1 = q
      · rw [if_pos h2, if_neg (fun e : q = p => h1 (h2.trans e)), fsGet, if_pos h2]
      · rw [if_neg h2, ih, fsGet, if_neg h2]

theorem fsGet_fsSet (fs : FS) (p : List String) (e : Entry) (q : List String) :
    fsGet (fsSet fs p e) q = if q = p then some e else fsGet fs q := by
  rw [fsSet, fsGet]
  by_cases h : q = p
  · simp [h]
  · rw [if_neg (fun e => h e.symm), if_neg h, fsGet_fsRemove, if_neg h]

theorem appendText_at (fs : FS) (p : List String) (s : String) :
    ∃ t, fsGet (appendText fs p s) p = some (Entry.file (FileData.text t)) := by
  unfold appendText
  cases hfs : fsGet fs p with
  | none => exact ⟨s, by rw [fsGet_fsSet, if_pos rfl]⟩
  | some e =>
    cases e with
    | file d =>
      cases d with
      | bytes bs => exact ⟨s, by rw [fsGet_fsSet, if_pos rfl]⟩
      | text old => exact ⟨old ++ s, by rw [fsGet_fsSet, if_pos rfl]⟩
    | symlink t => exact ⟨s, by rw [fsGet_fsSet, if_pos rfl]⟩

theorem appendText_frame (fs : FS) (p : List String) (s : String)
    (q : List String) (h : q ≠ p) :
    fsGet (appendText fs p s) q = fsGet fs q := by
  unfold appendText
  cases hfs : fsGet fs p with
  | none => rw [fsGet_fsSet, if_neg h]
  | some e =>
    cases e with
    | file d => cases d <;> rw [fsGet_fsSet, if_neg h]
    | symlink t => rw [fsGet_fsSet, if_neg h]

/-- Placing a file at a fresh destination succeeds in every mode and
changes the filesystem exactly at the destination. -/
theorem placeFile_fresh (mode : Mode) (fs : FS) (content : List Nat)
    (src dest : List String) (h : fsGet fs dest = none) :
    ∃ fs', placeFile mode fs content src dest = Except.ok fs' ∧
      ∀ q, fsGet fs' q =
        if q = dest then expectedEntry mode content src else fsGet fs q := by
  cases mode with
  | copy =>
    refine ⟨fsSet fs dest (Entry.file (FileData.bytes content)), rfl, fun q => ?_⟩
    rw [fsGet_fsSet]; rfl
  | symlink =>
    have hex : pathExists fs dest = false := by
      unfold pathExists resolveData
      rw [h]
      rfl
    refine ⟨fsSet fs dest (Entry.symlink src), ?_, fun q => ?_⟩
    · unfold placeFile
      rw [hex]
      simp only [Bool.false_eq_true, if_false]
      unfold os_symlink
      rw [h]
    · rw [fsGet_fsSet]; rfl
  | plan =>
    refine ⟨fs, rfl, fun q => ?_⟩
    by_cases hq : q = dest
    · rw [if_pos hq, hq, h]; rfl
    · rw [if_neg hq]

/-! ## Loop-body characterization -/

theorem recordFile_fs (hashFn : List Nat → Nat) (args : Args)
    (root dp : List String) (label dtype : String) (f : SrcFile)
    (st : RunState) (fs1 : FS) :
    (recordFile hashFn args root dp label dtype f st fs1).fs = fs1 := by
  by_cases hc : args.computeHash = true <;> by_cases hh : f.hashOk = true <;>
    simp [recordFile, hc, hh]

theorem recordFile_rows (hashFn : List Nat → Nat) (args : Args)
    (root dp : List String) (label dtype : String) (f : SrcFile)
    (st : RunState) (fs1 : FS) :
    (recordFile hashFn args root dp label dtype f st fs1).rows =
      st.rows ++ [rowOf args root dp label dtype f] := by
  by_cases hc : args.computeHash = true <;> by_cases hh : f.hashOk = true <;>
    simp [recordFile, hc, hh]

theorem relSegsOf_append (root rest : List String) :
    relSegsOf (root ++ rest) root = rest := by
  unfold relSegsOf
  rw [if_pos]
  · exact List.drop_left _ _
  · induction root with
    | nil => simp [List.isPrefixOf]
    | cons x xs ih => simp [List.isPrefixOf, ih]

theorem recordFile_manifest (hashFn : List Nat → Nat) (args : Args)
    (root dp : List String) (label dtype : String) (f : SrcFile)
    (st : RunState) (fs1 : FS) :
    (recordFile hashFn args root dp label dtype f st fs1).manifest =
      st.manifest ++ (if args.computeHash && f.hashOk then
        [(hashFn f.content, [label] ++ f.rel)] else []) := by
  by_cases hc : args.computeHash = true <;> by_cases hh : f.hashOk = true <;>
    simp [recordFile, hc, hh, relSegsOf_append root (label :: f.rel)]

theorem recordFile_problems (hashFn : List Nat → Nat) (args : Args)
    (root dp : List String) (label dtype : String) (f : SrcFile)
    (st : RunState) (fs1 : FS) :
    (recordFile hashFn args root dp label dtype f st fs1).problems =
      st.problems + (if args.computeHash && !f.hashOk then 1 else 0) := by
  by_cases hc : args.computeHash = true <;> by_cases hh : f.hashOk = true <;>
    simp [recordFile, hc, hh]

theorem recordFile_hashErrCount (hashFn : List Nat → Nat) (args : Args)
    (root dp : List String) (label dtype : String) (f : SrcFile)
    (st : RunState) (fs1 : FS) :
    (recordFile hashFn args root dp label dtype f st fs1).log.countP isHashErr =
      st.log.countP isHashErr + (if args.computeHash && !f.hashOk then 1 else 0) := by
  by_cases hc : args.computeHash = true <;> by_cases hh : f.hashOk = true <;>
    by_cases hd : (label, lastSeg f.rel) ∈ st.dupKeys <;>
    simp [recordFile, hc, hh, hd, List.countP_append, isHashErr]

theorem recordFile_log_mono (hashFn : List Nat → Nat) (args : Args)
    (root dp : List String) (label dtype : String) (f : SrcFile)
    (st : RunState) (fs1 : FS) (e : LogEvent) (he : e ∈ st.log) :
    e ∈ (recordFile hashFn args root dp label dtype f st fs1).log := by
  by_cases hc : args.computeHash = true <;> by_cases hh : f.hashOk = true <;>
    by_cases hd : (label, lastSeg f.rel) ∈ st.dupKeys <;>
    simp [recordFile, hc, hh, hd, he]

theorem recordFile_dupKeys_mono (hashFn : List Nat → Nat) (args : Args)
    (root dp : List String) (label dtype : String) (f : SrcFile)
    (st : RunState) (fs1 : FS) (k : String × String) (hk : k ∈ st.dupKeys) :
    k ∈ (recordFile hashFn args root dp label dtype f st fs1).dupKeys := by
  by_cases hc : args.computeHash = true <;> by_cases hh : f.hashOk = true <;>
    by_cases hd : (label, lastSeg f.rel) ∈ st.dupKeys <;>
    simp [recordFile, hc, hh, hd, hk]

theorem recordFile_dupKeys_self (hashFn : List Nat → Nat) (args : Args)
    (root dp : List String) (label dtype : String) (f : SrcFile)
    (st : RunState) (fs1 : FS) :
    (label, lastSeg f.rel) ∈ (recordFile hashFn args root dp label dtype f st fs1).dupKeys := by
  by_cases hc : args.computeHash = true <;> by_cases hh : f.hashOk = true <;>
    by_cases hd : (label, lastSeg f.rel) ∈ st.dupKeys <;>
    simp [recordFile, hc, hh, hd]

theorem recordFile_dupWarn (hashFn : List Nat → Nat) (args : Args)
    (root dp : List String) (label dtype : String) (f : SrcFile)
    (st : RunState) (fs1 : FS) (hk : (label, lastSeg f.rel) ∈ st.dupKeys) :
    LogEvent.dupWarn label (lastSeg f.rel) ∈
      (recordFile hashFn args root dp label dtype f st fs1).log := by
  by_cases hc : args.computeHash = true <;> by_cases hh : f.hashOk = true <;>
    simp [recordFile, hc, hh, hk]

theorem processFile_ok_iff (hashFn : List Nat → Nat) (args : Args)
    (root dp : List String) (label dtype : String) (st : RunState)
    (f : SrcFile) (st' : RunState) :
    processFile hashFn args root dp label dtype st f = Except.ok st' ↔
      ∃ fs1, placeFile args.mode st.fs f.content (dp ++ f.rel)
          (root ++ [label] ++ f.rel) = Except.ok fs1 ∧
        st' = recordFile hashFn args root dp label dtype f st fs1 := by
  unfold processFile
  cases hpl : placeFile args.mode st.fs f.content (dp ++ f.rel)
      (root ++ [label] ++ f.rel) with
  | error e =>
    constructor
    · intro h
      exact Except.noConfusion h
    · rintro ⟨fs2, h1, _⟩
      exact Except.noConfusion h1
  | ok fs1 =>
    constructor
    · intro h
      exact ⟨fs1, rfl, by injection h with h; exact h.symm⟩
    · rintro ⟨fs2, h1, h2⟩
      injection h1 with h1
      rw [h2, h1]

/-! ## Fusion: the nested loops equal one fold over jobs -/

theorem processFiles_eq_processJobs (hashFn : List Nat → Nat) (args : Args)
    (root dp : List String) (label dtype : String) (files : List SrcFile) :
    ∀ st, processFiles hashFn args root dp label dtype st files =
      processJobs hashFn args root st
        (files.map (fun f => ⟨dp, label, dtype, f⟩)) := by
  induction files with
  | nil => intro st; rfl
  | cons f rest ih =>
    intro st
    show (processFile hashFn args root dp label dtype st f).bind _ = _
    simp only [List.map_cons, processJobs]
    cases h : processFile hashFn args root dp label dtype st f with
    | error e => rfl
    | ok st1 => exact ih st1

theorem processJobs_append (hashFn : List Nat → Nat) (args : Args)
    (root : List String) (a b : List Job) :
    ∀ st, processJobs hashFn args root st (a ++ b) =
      match processJobs hashFn args root st a with
      | Except.error e => Except.error e
      | Except.ok st' => processJobs hashFn args root st' b := by
  induction a with
  | nil => intro st; rfl
  | cons j js ih =>
    intro st
    simp only [List.cons_append, processJobs]
    cases h : processFile hashFn args root j.devicePath j.label j.dtype st j.file with
    | error e => rfl
    | ok st1 => exact ih st1

theorem processDevices_eq_processJobs (hashFn : List Nat → Nat) (args : Args)
    (root : List String) (devices : List (InputChild × String × String)) :
    ∀ st, processDevices hashFn args root st devices =
      processJobs hashFn args root st (jobsOf args devices) := by
  induction devices with
  | nil => intro st; rfl
  | cons d ds ih =>
    intro st
    obtain ⟨c, label, dtype⟩ := d
    show (processFiles hashFn args root (args.input ++ [c.name]) label dtype st c.files).bind _ = _
    rw [processFiles_eq_processJobs]
    show _ = processJobs hashFn args root st (jobsOfDevice args (c, label, dtype) ++ jobsOf args ds)
    rw [processJobs_append]
    unfold jobsOfDevice
    cases h : processJobs hashFn args root st
        (c.files.map (fun f => ⟨args.input ++ [c.name], label, dtype, f⟩)) with
    | error e => rfl
    | ok st1 => exact ih st1

/-! ## Run-level characterization of the loop state -/

theorem countHashFail_cons (args : Args) (j : Job) (js : List Job) :
    countHashFail args (j :: js) =
      (if args.computeHash && !j.file.hashOk then 1 else 0) + countHashFail args js := by
  by_cases hc : args.computeHash = true <;> by_cases hh : j.file.hashOk = true <;>
    simp [countHashFail, hc, hh, List.filter, Nat.add_comm]

theorem manifestOf_cons (hashFn : List Nat → Nat) (args : Args) (j : Job) (js : List Job) :
    manifestOf hashFn args (j :: js) =
      (if args.computeHash && j.file.hashOk then
        [(hashFn j.file.content, [j.label] ++ j.file.rel)] else []) ++
      manifestOf hashFn args js := by
  by_cases hc : args.computeHash = true <;> by_cases hh : j.file.hashOk = true <;>
    simp [manifestOf, hc, hh, List.filter]

theorem keyCount_cons (js : List Job) (j : Job) (k : String × String) :
    keyCount (j :: js) k = (if j.key = k then 1 else 0) + keyCount js k := by
  by_cases h : j.key = k <;> simp [keyCount, List.filter, h, Nat.add_comm]

theorem keyCount_pos_mem (js : List Job) (k : String × String)
    (h : 1 ≤ keyCount js k) : ∃ j ∈ js, j.key = k := by
  unfold keyCount at h
  cases hf : js.filter (fun j => j.key = k) with
  | nil => rw [hf] at h; cases h
  | cons a t =>
    have ha : a ∈ js.filter (fun j => j.key = k) := by rw [hf]; exact List.mem_cons_self a t
    have := List.mem_filter.mp ha
    exact ⟨a, this.1, by simpa using this.2⟩

theorem processJobs_state (hashFn : List Nat → Nat) (args : Args) (root : List String) :
    ∀ (jobs : List Job) (st st' : RunState),
      processJobs hashFn args root st jobs = Except.ok st' →
      st'.rows = st.rows ++
        jobs.map (fun j => rowOf args root j.devicePath j.label j.dtype j.file) ∧
      st'.problems = st.problems + countHashFail args jobs ∧
      st'.manifest = st.manifest ++ manifestOf hashFn args jobs ∧
      st'.log.countP isHashErr = st.log.countP isHashErr + countHashFail args jobs ∧
      (∀ e ∈ st.log, e ∈ st'.log) ∧
      (∀ k ∈ st.dupKeys, k ∈ st'.dupKeys) := by
  intro jobs
  induction jobs with
  | nil =>
    intro st st' h
    injection h with h
    subst h
    simp [countHashFail, manifestOf]
  | cons j js ih =>
    intro st st' h
    cases hpf : processFile hashFn args root j.devicePath j.label j.dtype st j.file with
    | error e => rw [processJobs, hpf] at h; cases h
    | ok st1 =>
      rw [processJobs, hpf] at h
      obtain ⟨fs1, _, hrec⟩ :=
        (processFile_ok_iff hashFn args root j.devicePath j.label j.dtype st j.file st1).mp hpf
      obtain ⟨hrows, hprob, hman, hcount, hlog, hkeys⟩ := ih st1 st' h
      subst hrec
      refine ⟨?_, ?_, ?_, ?_, ?_, ?_⟩
      · rw [hrows, recordFile_rows, List.map_cons, List.append_assoc]
        rfl
      · rw [hprob, recordFile_problems, countHashFail_cons, Nat.add_assoc]
      · rw [hman, recordFile_manifest, manifestOf_cons, List.append_assoc]
      · rw [hcount, recordFile_hashErrCount, countHashFail_cons, Nat.add_assoc]
      · intro e he
        exact hlog e (recordFile_log_mono hashFn args root j.devicePath j.label j.dtype
          j.file st fs1 e he)
      · intro k hk
        exact hkeys k (recordFile_dupKeys_mono hashFn args root j.devicePath j.label j.dtype
          j.file st fs1 k hk)

theorem processJobs_warn_of_mem (hashFn : List Nat → Nat) (args : Args) (root : List String) :
    ∀ (jobs : List Job) (st st' : RunState),
      processJobs hashFn args root st jobs = Except.ok st' →
      ∀ k, k ∈ st.dupKeys → (∃ j ∈ jobs, j.key = k) →
        LogEvent.dupWarn k.1 k.2 ∈ st'.log := by
  intro jobs
  induction jobs with
  | nil =>
    intro st st' h k _ hex
    obtain ⟨j, hj, _⟩ := hex
    cases hj
  | cons j js ih =>
    intro st st' h k hk hex
    cases hpf : processFile hashFn args root j.devicePath j.label j.dtype st j.file with
    | error e => rw [processJobs, hpf] at h; cases h
    | ok st1 =>
      rw [processJobs, hpf] at h
      obtain ⟨fs1, _, hrec⟩ :=
        (processFile_ok_iff hashFn args root j.devicePath j.label j.dtype st j.file st1).mp hpf
      obtain ⟨j0, hj0, hj0k⟩ := hex
      rcases List.mem_cons.mp hj0 with hhead | htail
      · subst hhead
        have hwarn : LogEvent.dupWarn j0.label (lastSeg j0.file.rel) ∈ st1.log := by
          rw [hrec]
          exact recordFile_dupWarn hashFn args root j0.devicePath j0.label j0.dtype
            j0.file st fs1 (by rw [show (j0.label, lastSeg j0.file.rel) = j0.key from rfl, hj0k]; exact hk)
        have hmono := (processJobs_state hashFn args root js st1 st' h).2.2.2.2.1
        have : LogEvent.dupWarn k.1 k.2 ∈ st1.log := by
          rw [← hj0k]
          exact hwarn
        exact hmono _ this
      · have hk1 : k ∈ st1.dupKeys := by
          rw [hrec]
          exact recordFile_dupKeys_mono hashFn args root j.devicePath j.label j.dtype
            j.file st fs1 k hk
        exact ih st1 st' h k hk1 ⟨j0, htail, hj0k⟩

theorem processJobs_warn_of_two (hashFn : List Nat → Nat) (args : Args) (root : List String) :
    ∀ (jobs : List Job) (st st' : RunState),
      processJobs hashFn args root st jobs = Except.ok st' →
      ∀ k, 2 ≤ keyCount jobs k → LogEvent.dupWarn k.1 k.2 ∈ st'.log := by
  intro jobs
  induction jobs with
  | nil => intro st st' _ k hk; simp [keyCount] at hk
  | cons j js ih =>
    intro st st' h k hk
    cases hpf : processFile hashFn args root j.devicePath j.label j.dtype st j.file with
    | error e => rw [processJobs, hpf] at h; cases h
    | ok st1 =>
      rw [processJobs, hpf] at h
      obtain ⟨fs1, _, hrec⟩ :=
        (processFile_ok_iff hashFn args root j.devicePath j.label j.dtype st j.file st1).mp hpf
      rw [keyCount_cons] at hk
      by_cases hjk : j.key = k
      · rw [if_pos hjk] at hk
        have hone : 1 ≤ keyCount js k := by omega
        have hk1 : k ∈ st1.dupKeys := by
          rw [hrec, ← hjk]
          exact recordFile_dupKeys_self hashFn args root j.devicePath j.label j.dtype
            j.file st fs1
        exact processJobs_warn_of_mem hashFn args root js st1 st' h k hk1
          (keyCount_pos_mem js k hone)
      · rw [if_neg hjk] at hk
        exact ih st1 st' h k (by omega)

/-! ## Run-level characterization of the filesystem -/

theorem processJobs_fs (hashFn : List Nat → Nat) (args : Args) (root : List String) :
    ∀ (jobs : List Job) (st : RunState),
      (∀ j ∈ jobs, fsGet st.fs (j.dest root) = none) →
      (jobs.map (fun j => j.dest root)).Nodup →
      ∃ st', processJobs hashFn args root st jobs = Except.ok st' ∧
        ∀ q, fsGet st'.fs q = destView args.mode root jobs st.fs q := by
  intro jobs
  induction jobs with
  | nil =>
    intro st _ _
    exact ⟨st, rfl, fun q => by simp [destView, jobAt]⟩
  | cons j js ih =>
    intro st hfresh hnodup
    have hj : fsGet st.fs (j.dest root) = none := hfresh j (List.mem_cons_self j js)
    obtain ⟨fs1, hpl, hfs1⟩ := placeFile_fresh args.mode st.fs j.file.content
      j.src (j.dest root) hj
    have hpf : processFile hashFn args root j.devicePath j.label j.dtype st j.file =
        Except.ok (recordFile hashFn args root j.devicePath j.label j.dtype j.file st fs1) :=
      (processFile_ok_iff hashFn args root j.devicePath j.label j.dtype st j.file _).mpr
        ⟨fs1, hpl, rfl⟩
    have hst1fs : (recordFile hashFn args root j.devicePath j.label j.dtype j.file st fs1).fs
        = fs1 := recordFile_fs hashFn args root j.devicePath j.label j.dtype j.file st fs1
    have hnd := List.nodup_cons.mp hnodup
    have hfresh' : ∀ k ∈ js,
        fsGet (recordFile hashFn args root j.devicePath j.label j.dtype j.file st fs1).fs
          (k.dest root) = none := by
      intro k hkmem
      rw [hst1fs, hfs1]
      have hne : k.dest root ≠ j.dest root := by
        intro e
        have : k.dest root ∈ js.map (fun x => x.dest root) :=
          List.mem_map_of_mem (fun x => x.dest root) hkmem
        rw [e] at this
        exact hnd.1 this
      rw [if_neg hne]
      exact hfresh k (List.mem_cons_of_mem j hkmem)
    obtain ⟨st', hrun, hview⟩ := ih
      (recordFile hashFn args root j.devicePath j.label j.dtype j.file st fs1) hfresh' hnd.2
    refine ⟨st', ?_, ?_⟩
    · rw [processJobs, hpf]
      exact hrun
    · intro q
      rw [hview q]
      unfold destView
      by_cases hq : j.dest root = q
      · have hnone : jobAt root js q = none := by
          unfold jobAt
          cases hfind : js.find? (fun x => x.dest root = q) with
          | none => rfl
          | some k =>
            have hkmem := List.mem_of_find?_eq_some hfind
            have hkq : k.dest root = q := by
              have := List.find?_some hfind
              simpa using this
            have hmem : k.dest root ∈ js.map (fun x => x.dest root) :=
              List.mem_map_of_mem (fun x => x.dest root) hkmem
            rw [hkq, ← hq] at hmem
            exact absurd hmem hnd.1
        have hsome : jobAt root (j :: js) q = some j := by
          unfold jobAt
          rw [List.find?_cons_of_pos _ (by simpa using hq)]
        rw [hnone, hsome, hst1fs, hfs1, if_pos hq.symm]
      · have hcons : jobAt root (j :: js) q = jobAt root js q := by
          unfold jobAt
          rw [List.find?_cons_of_neg _ (by simpa using hq)]
        rw [hcons]
        cases hfind : jobAt root js q with
        | some k => rfl
        | none =>
          rw [hst1fs, hfs1, if_neg (fun e => hq e.symm)]

/-! ## Epilogue and whole-run lemmas -/

theorem finalizeRun_rows (args : Args) (root : List String) (now : String) (st : RunState) :
    (finalizeRun args root now st).rows = st.rows := rfl

theorem finalizeRun_manifest_val (args : Args) (root : List String) (now : String) (st : RunState) :
    (finalizeRun args root now st).manifest = st.manifest := rfl

theorem finalizeRun_log (args : Args) (root : List String) (now : String) (st : RunState) :
    (finalizeRun args root now st).log = st.log := rfl

theorem finalizeRun_problems (args : Args) (root : List String) (now : String) (st : RunState) :
    (finalizeRun args root now st).problems = st.problems := rfl

theorem finalizeRun_stagingRoot (args : Args) (root : List String) (now : String) (st : RunState) :
    (finalizeRun args root now st).stagingRoot = root := rfl

theorem csv_ne_man (root : List String) :
    root ++ ["file_inventory.csv"] ≠ root ++ ["manifest_sha256.txt"] := by
  simp

theorem csv_ne_log (root : List String) :
    root ++ ["file_inventory.csv"] ≠ root ++ ["logs", "ingest.log"] := by
  simp

theorem man_ne_log (root : List String) :
    root ++ ["manifest_sha256.txt"] ≠ root ++ ["logs", "ingest.log"] := by
  simp

theorem finalizeRun_csv (args : Args) (root : List String) (now : String) (st : RunState) :
    fsGet (finalizeRun args root now st).finalFs (root ++ ["file_inventory.csv"]) =
      some (Entry.file (FileData.text (renderCSV st.rows))) := by
  unfold finalizeRun
  dsimp only
  rw [appendText_frame _ _ _ _ (csv_ne_log root)]
  by_cases hc : args.computeHash = true
  · rw [if_pos hc, fsGet_fsSet, if_neg (csv_ne_man root), fsGet_fsSet, if_pos rfl]
  · rw [if_neg hc, fsGet_fsSet, if_pos rfl]

theorem finalizeRun_man (args : Args) (root : List String) (now : String) (st : RunState)
    (hc : args.computeHash = true) :
    fsGet (finalizeRun args root now st).finalFs (root ++ ["manifest_sha256.txt"]) =
      some (Entry.file (FileData.text (renderManifest st.manifest))) := by
  unfold finalizeRun
  dsimp only
  rw [appendText_frame _ _ _ _ (man_ne_log root)]
  rw [if_pos hc, fsGet_fsSet, if_pos rfl]

theorem finalizeRun_logfile (args : Args) (root : List String) (now : String) (st : RunState) :
    ∃ t, fsGet (finalizeRun args root now st).finalFs (root ++ ["logs", "ingest.log"]) =
      some (Entry.file (FileData.text t)) := by
  unfold finalizeRun
  dsimp only
  exact appendText_at _ _ _

theorem finalizeRun_frame (args : Args) (root : List String) (now : String) (st : RunState)
    (q : List String)
    (h1 : q ≠ root ++ ["file_inventory.csv"])
    (h2 : q ≠ root ++ ["manifest_sha256.txt"])
    (h3 : q ≠ root ++ ["logs", "ingest.log"]) :
    fsGet (finalizeRun args root now st).finalFs q = fsGet st.fs q := by
  unfold finalizeRun
  dsimp only
  rw [appendText_frame _ _ _ _ h3]
  by_cases hc : args.computeHash = true
  · rw [if_pos hc, fsGet_fsSet, if_neg h2, fsGet_fsSet, if_neg h1]
  · rw [if_neg hc, fsGet_fsSet, if_neg h1]

theorem runIngest_ok_cases (hashFn : List Nat → Nat) (args : Args)
    (children : List InputChild) (cy now : String) (fs0 : FS) (o : RunOutcome)
    (h : runIngest hashFn args children cy now fs0 = Except.ok o) :
    (discover_devices children = [] ∧ o = earlyOutcome (rootOf args cy) fs0) ∨
    (discover_devices children ≠ [] ∧ ∃ st,
      processJobs hashFn args (rootOf args cy) (initState fs0)
        (jobsOf args (discover_devices children)) = Except.ok st ∧
      o = finalizeRun args (rootOf args cy) now st) := by
  unfold runIngest at h
  by_cases hd : (discover_devices children).isEmpty = true
  · left
    rw [if_pos hd] at h
    injection h with h
    exact ⟨List.isEmpty_iff.mp hd, h.symm⟩
  · right
    rw [if_neg hd] at h
    rw [processDevices_eq_processJobs] at h
    refine ⟨fun e => hd (by rw [e]; rfl), ?_⟩
    cases hrun : processJobs hashFn args (rootOf args cy) (initState fs0)
        (jobsOf args (discover_devices children)) with
    | error e => rw [hrun] at h; cases h
    | ok st =>
      rw [hrun] at h
      injection h with h
      exact ⟨st, rfl, h.symm⟩

theorem jobsOf_length (args : Args) (devices : List (InputChild × String × String)) :
    (jobsOf args devices).length = (devices.map (fun d => d.1.files.length)).sum := by
  induction devices with
  | nil => rfl
  | cons d ds ih =>
    rw [jobsOf, List.length_append, ih, jobsOfDevice, List.length_map, List.map_cons,
      List.sum_cons]

theorem sum_const_files (devices : List (InputChild × String × String)) (M : Nat)
    (h : ∀ d ∈ devices, d.1.files.length = M) :
    (devices.map (fun d => d.1.files.length)).sum = devices.length * M := by
  induction devices with
  | nil => simp
  | cons d ds ih =>
    rw [List.map_cons, List.sum_cons, h d (List.mem_cons_self d ds),
      ih (fun x hx => h x (List.mem_cons_of_mem d hx)), List.length_cons,
      Nat.succ_mul, Nat.add_comm]

/-! ## Plan-mode and staged-tree lemmas -/

theorem processJobs_plan_fs (hashFn : List Nat → Nat) (args : Args)
    (root : List String) (hm : args.mode = Mode.plan) :
    ∀ (jobs : List Job) (st : RunState),
      ∃ st', processJobs hashFn args root st jobs = Except.ok st' ∧ st'.fs = st.fs := by
  intro jobs
  induction jobs with
  | nil => intro st; exact ⟨st, rfl, rfl⟩
  | cons j js ih =>
    intro st
    have hpf : processFile hashFn args root j.devicePath j.label j.dtype st j.file =
        Except.ok (recordFile hashFn args root j.devicePath j.label j.dtype j.file st st.fs) :=
      (processFile_ok_iff hashFn args root j.devicePath j.label j.dtype st j.file _).mpr
        ⟨st.fs, by rw [hm]; rfl, rfl⟩
    obtain ⟨st', hrun, hfs⟩ :=
      ih (recordFile hashFn args root j.devicePath j.label j.dtype j.file st st.fs)
    refine ⟨st', ?_, ?_⟩
    · rw [processJobs, hpf]
      exact hrun
    · rw [hfs]
      exact recordFile_fs hashFn args root j.devicePath j.label j.dtype j.file st st.fs

theorem root_prefix_dest (root : List String) (j : Job) : root <+: j.dest root := by
  refine ⟨[j.label] ++ j.file.rel, ?_⟩
  unfold Job.dest
  rw [← List.append_assoc]

theorem jobAt_self (root : List String) (jobs : List Job) (j : Job) :
    j ∈ jobs → ((jobs.map (fun x => x.dest root)).Nodup) →
    jobAt root jobs (j.dest root) = some j := by
  induction jobs with
  | nil => intro h _; cases h
  | cons j0 js ih =>
    intro hmem hnodup
    have hnd := List.nodup_cons.mp hnodup
    rcases List.mem_cons.mp hmem with hh | ht
    · subst hh
      unfold jobAt
      rw [List.find?_cons_of_pos _ (by simp)]
    · have hne : j0.dest root ≠ j.dest root := by
        intro e
        have : j.dest root ∈ js.map (fun x => x.dest root) :=
          List.mem_map_of_mem (fun x => x.dest root) ht
        rw [← e] at this
        exact hnd.1 this
      unfold jobAt
      rw [List.find?_cons_of_neg _ (by simpa using hne)]
      exact ih ht hnd.2

theorem jobAt_eq_none (root : List String) (jobs : List Job) (q : List String)
    (h : ∀ k ∈ jobs, k.dest root ≠ q) : jobAt root jobs q = none := by
  unfold jobAt
  apply List.find?_eq_none.mpr
  intro k hk
  simpa using h k hk

theorem dest_ne_csv (root : List String) (j : Job) (hrel : j.file.rel ≠ []) :
    j.dest root ≠ root ++ ["file_inventory.csv"] := by
  intro e
  unfold Job.dest at e
  rw [List.append_assoc] at e
  have h := List.append_cancel_left e
  simp at h
  exact hrel h.2

theorem dest_ne_man (root : List String) (j : Job) (hrel : j.file.rel ≠ []) :
    j.dest root ≠ root ++ ["manifest_sha256.txt"] := by
  intro e
  unfold Job.dest at e
  rw [List.append_assoc] at e
  have h := List.append_cancel_left e
  simp at h
  exact hrel h.2

theorem dest_ne_log (root : List String) (j : Job) (hlabel : j.label ≠ "logs") :
    j.dest root ≠ root ++ ["logs", "ingest.log"] := by
  intro e
  unfold Job.dest at e
  rw [List.append_assoc] at e
  have h := List.append_cancel_left e
  simp at h
  exact hlabel h.1

theorem resolve_one_step (fs : FS) (dest : List String) (bs : List Nat)
    (h1 : fsGet fs dest = some (Entry.file (FileData.bytes bs))) :
    resolveData fs (fs.length + 1) dest = some (FileData.bytes bs) := by
  unfold resolveData
  rw [h1]

theorem resolve_two_step (fs : FS) (dest src : List String) (bs : List Nat)
    (h1 : fsGet fs dest = some (Entry.symlink src))
    (h2 : fsGet fs src = some (Entry.file (FileData.bytes bs))) :
    resolveData fs (fs.length + 1) dest = some (FileData.bytes bs) := by
  cases hfs : fs with
  | nil => rw [hfs] at h1; cases h1
  | cons kv rest =>
    rw [← hfs]
    have hlen : fs.length = rest.length + 1 := by rw [hfs]; rfl
    rw [hlen]
    show resolveData fs (rest.length + 1 + 1) dest = some (FileData.bytes bs)
    unfold resolveData
    rw [h1]
    show resolveData fs (rest.length + 1) src = some (FileData.bytes bs)
    unfold resolveData
    rw [h2]

/-- After a successful run, every staged destination holds exactly what
its placement mode left there (`expectedEntry`), and every source path
outside the staging subtree is untouched — provided the staging subtree
started empty, destinations do not collide with each other, with the
`logs` directory, or with the artifact names, and sources live outside
the staging subtree. -/
theorem runIngest_staged (hashFn : List Nat → Nat) (args : Args)
    (children : List InputChild) (cy now : String) (fs0 : FS) (o : RunOutcome)
    (hfresh : ∀ p, rootOf args cy <+: p → fsGet fs0 p = none)
    (hnodup : ((jobsOf args (discover_devices children)).map
      (fun j => j.dest (rootOf args cy))).Nodup)
    (hrelne : ∀ j ∈ jobsOf args (discover_devices children), j.file.rel ≠ [])
    (hlogs : ∀ j ∈ jobsOf args (discover_devices children), j.label ≠ "logs")
    (hdisj : ∀ j ∈ jobsOf args (discover_devices children),
      ¬ rootOf args cy <+: j.src)
    (h : runIngest hashFn args children cy now fs0 = Except.ok o) :
    ∀ j ∈ jobsOf args (discover_devices children),
      fsGet o.finalFs (j.dest (rootOf args cy)) =
        expectedEntry args.mode j.file.content j.src ∧
      fsGet o.finalFs j.src = fsGet fs0 j.src := by
  rcases runIngest_ok_cases hashFn args children cy now fs0 o h with
    ⟨hd, ho⟩ | ⟨_, st, hrun, ho⟩
  · intro j hj
    rw [hd] at hj
    simp [jobsOf] at hj
  · obtain ⟨st2, hrun2, hview⟩ := processJobs_fs hashFn args (rootOf args cy)
      (jobsOf args (discover_devices children)) (initState fs0)
      (fun j hj => hfresh (j.dest (rootOf args cy)) (root_prefix_dest _ j)) hnodup
    rw [hrun] at hrun2
    injection hrun2 with hst
    subst hst
    subst ho
    intro j hj
    constructor
    · rw [finalizeRun_frame args (rootOf args cy) now st _
        (dest_ne_csv _ j (hrelne j hj)) (dest_ne_man _ j (hrelne j hj))
        (dest_ne_log _ j (hlogs j hj))]
      rw [hview]
      unfold destView
      rw [jobAt_self (rootOf args cy) _ j hj hnodup]
    · have hsrcne : ∀ x : List String, rootOf args cy <+: x → j.src ≠ x := by
        intro x hx e
        exact hdisj j hj (e ▸ hx)
      rw [finalizeRun_frame args (rootOf args cy) now st _
        (hsrcne _ (List.prefix_append _ _)) (hsrcne _ (List.prefix_append _ _))
        (hsrcne _ (List.prefix_append _ _))]
      rw [hview]
      unfold destView
      rw [jobAt_eq_none _ _ _ (fun k hk e =>
        hdisj j hj (by rw [← e]; exact root_prefix_dest (rootOf args cy) k))]
      rfl

theorem finalizeRun_frame_noHash (args : Args) (root : List String) (now : String)
    (st : RunState) (q : List String) (hc : args.computeHash = false)
    (h1 : q ≠ root ++ ["file_inventory.csv"])
    (h3 : q ≠ root ++ ["logs", "ingest.log"]) :
    fsGet (finalizeRun args root now st).finalFs q = fsGet st.fs q := by
  unfold finalizeRun
  dsimp only
  rw [appendText_frame _ _ _ _ h3]
  rw [if_neg (by rw [hc]; exact Bool.false_ne_true), fsGet_fsSet, if_neg h1]

theorem manifestOf_mem (hashFn : List Nat → Nat) (args : Args) (jobs : List Job)
    (e : Nat × List String) (he : e ∈ manifestOf hashFn args jobs) :
    ∃ j ∈ jobs, j.file.hashOk = true ∧
      e = (hashFn j.file.content, [j.label] ++ j.file.rel) := by
  unfold manifestOf at he
  by_cases hc : args.computeHash = true
  · rw [if_pos hc] at he
    obtain ⟨j, hj, hje⟩ := List.mem_map.mp he
    have hf := List.mem_filter.mp hj
    exact ⟨j, hf.1, by simpa using hf.2, hje.symm⟩
  · rw [if_neg hc] at he
    cases he

theorem dest_eq_root_append (root : List String) (j : Job) :
    root ++ ([j.label] ++ j.file.rel) = j.dest root := by
  unfold Job.dest
  rw [← List.append_assoc]

/-! ## Claim C1 — per-file stat and hash failures -/

/-- C1 (counterexample): the claim says a stat failure is tallied and
logged the same way a hash failure is.  Running on a device whose single
file fails `stat` (but hashes fine, hashing on), the run succeeds, emits
the row with empty size/mtime — yet the problem tally is 0 and nothing is
logged, so stat failures are neither tallied nor logged. -/
theorem C1_counterexample :
    (runIngest sampleHash (mkArgs Mode.plan true) statFailChildren "2031" "NOW"
        []).toOption.map
      (fun o => (o.problems, o.log, o.rows.map Row.size_bytes)) =
    some (0, [], [none]) := by decide

/-- C1 (amended): every per-file hash failure is caught, logged and
counted as a problem, and processing continues for all files; a stat
failure is likewise caught and the walk continues (the row is still
emitted), but stat failures are neither logged nor counted — the problem
tally equals exactly the number of hash failures, as does the number of
logged hash-error lines, and one row is emitted per walked file
regardless of either kind of failure. -/
theorem C1_amended (hashFn : List Nat → Nat) (args : Args)
    (children : List InputChild) (cy now : String) (fs0 : FS) (o : RunOutcome)
    (h : runIngest hashFn args children cy now fs0 = Except.ok o) :
    o.problems = countHashFail args (jobsOf args (discover_devices children)) ∧
    o.log.countP isHashErr =
      countHashFail args (jobsOf args (discover_devices children)) ∧
    o.rows.length = (jobsOf args (discover_devices children)).length := by
  rcases runIngest_ok_cases hashFn args children cy now fs0 o h with
    ⟨hd, ho⟩ | ⟨_, st, hrun, ho⟩
  · subst ho
    rw [hd]
    simp [earlyOutcome, jobsOf, countHashFail]
  · subst ho
    obtain ⟨hrows, hprob, _, hcount, _, _⟩ :=
      processJobs_state hashFn args (rootOf args cy) _ _ _ hrun
    refine ⟨?_, ?_, ?_⟩
    · rw [finalizeRun_problems, hprob]
      simp [initState]
    · rw [finalizeRun_log, hcount]
      simp [initState]
    · rw [finalizeRun_rows, hrows]
      simp [initState]

/-- C1 (witness for the amended theorem): on the stat-failing input the
amended theorem applies and yields a problem tally of 0. -/
theorem C1_amended_witness :
    (runIngest sampleHash (mkArgs Mode.plan true) statFailChildren "2031" "NOW"
        []).toOption.map RunOutcome.problems = some 0 := by
  obtain ⟨o, ho⟩ : ∃ o, runIngest sampleHash (mkArgs Mode.plan true) statFailChildren
      "2031" "NOW" [] = Except.ok o := ⟨_, rfl⟩
  have h := (C1_amended sampleHash (mkArgs Mode.plan true) statFailChildren
    "2031" "NOW" [] o ho).1
  have hc : countHashFail (mkArgs Mode.plan true)
      (jobsOf (mkArgs Mode.plan true) (discover_devices statFailChildren)) = 0 := by decide
  rw [ho]
  simp [Except.toOption, h, hc]

/-! ## Claim C2 — relative-path uniqueness and duplicate warnings -/

/-- C2 (counterexample): the claim says every inventory row's relative
path is unique within a run.  Two device folders `camera_01` and
`camera_1` both normalize to `CAM01`; with a file `a.jpg` in each, the
run emits two rows with the same relative path `CAM01/a.jpg` (and a
warning), so the uniqueness invariant fails. -/
theorem C2_counterexample :
    (runIngest sampleHash (mkArgs Mode.plan false) dupLabelChildren "2031" "NOW"
        []).toOption.map
      (fun o => (o.rows.map Row.relative_path, o.log)) =
    some (["CAM01/a.jpg", "CAM01/a.jpg"], [LogEvent.dupWarn "CAM01" "a.jpg"]) := by decide

/-- C2 (amended): whenever two walked files in the same (normalized)
device would collide — they share the duplicate-detection key of device
label and original filename — the collision is detected and reported as
a warning, never a fatal error, and the run continues, still emitting one
row per file; but the colliding rows are still appended, so relative
paths are not guaranteed unique within a run. -/
theorem C2_amended (hashFn : List Nat → Nat) (args : Args)
    (children : List InputChild) (cy now : String) (fs0 : FS) (o : RunOutcome)
    (h : runIngest hashFn args children cy now fs0 = Except.ok o) :
    o.rows.length = (jobsOf args (discover_devices children)).length ∧
    ∀ label fname,
      2 ≤ keyCount (jobsOf args (discover_devices children)) (label, fname) →
      LogEvent.dupWarn label fname ∈ o.log := by
  rcases runIngest_ok_cases hashFn args children cy now fs0 o h with
    ⟨hd, ho⟩ | ⟨_, st, hrun, ho⟩
  · subst ho
    rw [hd]
    constructor
    · simp [earlyOutcome, jobsOf]
    · intro label fname hk
      simp [jobsOf, keyCount] at hk
  · subst ho
    constructor
    · rw [finalizeRun_rows,
        (processJobs_state hashFn args (rootOf args cy) _ _ _ hrun).1]
      simp [initState]
    · intro label fname hk
      rw [finalizeRun_log]
      exact processJobs_warn_of_two hashFn args (rootOf args cy) _ _ _ hrun
        (label, fname) hk

/-- C2 (witness for the amended theorem): on the colliding input the
amended theorem applies; the collision key occurs twice and the warning
is indeed in the log. -/
theorem C2_amended_witness :
    2 ≤ keyCount (jobsOf (mkArgs Mode.plan false)
        (discover_devices dupLabelChildren)) ("CAM01", "a.jpg") ∧
    (runIngest sampleHash (mkArgs Mode.plan false) dupLabelChildren "2031" "NOW"
        []).toOption.map
      (fun o => decide (LogEvent.dupWarn "CAM01" "a.jpg" ∈ o.log)) = some true := by
  refine ⟨by decide, ?_⟩
  obtain ⟨o, ho⟩ : ∃ o, runIngest sampleHash (mkArgs Mode.plan false) dupLabelChildren
      "2031" "NOW" [] = Except.ok o := ⟨_, rfl⟩
  have h := (C2_amended sampleHash (mkArgs Mode.plan false) dupLabelChildren
    "2031" "NOW" [] o ho).2 "CAM01" "a.jpg" (by decide)
  rw [ho]
  simp [Except.toOption, h]

/-! ## Claim C3 — N devices × M files ⇒ N×M inventory rows -/

/-- C3 (counterexample): the claim quantifies over any input directory
with N device subfolders; with N = 0 (no subdirectories at all) it
promises an inventory CSV with 0 data rows, but the run returns early and
writes no inventory CSV at all. -/
theorem C3_counterexample :
    (runIngest sampleHash (mkArgs Mode.plan false) noDeviceChildren "2031" "NOW"
        []).toOption.map
      (fun o => (o.earlyExit,
        fsGet o.finalFs (o.stagingRoot ++ ["file_inventory.csv"]))) =
    some (true, none) := by decide

/-- C3 (amended): for an input directory with N ≥ 1 device subfolders,
each containing M files, a completed run emits an inventory CSV holding
exactly N×M data rows, one per file, regardless of duplicate-name
collisions (which only warn); with zero device subfolders the run warns
and ends without writing an inventory. -/
theorem C3_amended (hashFn : List Nat → Nat) (args : Args)
    (children : List InputChild) (cy now : String) (fs0 : FS) (o : RunOutcome)
    (N M : Nat)
    (h : runIngest hashFn args children cy now fs0 = Except.ok o)
    (hN : (discover_devices children).length = N)
    (hM : ∀ d ∈ discover_devices children, d.1.files.length = M)
    (hpos : 1 ≤ N) :
    o.rows.length = N * M ∧
    fsGet o.finalFs (o.stagingRoot ++ ["file_inventory.csv"]) =
      some (Entry.file (FileData.text (renderCSV o.rows))) := by
  rcases runIngest_ok_cases hashFn args children cy now fs0 o h with
    ⟨hd, _⟩ | ⟨_, st, hrun, ho⟩
  · rw [hd] at hN
    simp at hN
    omega
  · subst ho
    have hrows := (processJobs_state hashFn args (rootOf args cy) _ _ _ hrun).1
    constructor
    · rw [finalizeRun_rows, hrows]
      simp only [initState, List.nil_append, List.length_map]
      rw [jobsOf_length, sum_const_files _ M hM, hN]
    · rw [finalizeRun_stagingRoot, finalizeRun_rows]
      exact finalizeRun_csv args (rootOf args cy) now st

/-- C3 (witness for the amended theorem): the spec's §8 example — two
device folders with one file each — yields 2 × 1 = 2 rows and a written
inventory CSV. -/
theorem C3_amended_witness :
    (runIngest sampleHash (mkArgs Mode.copy true) twoDeviceChildren "2031" "NOW"
        []).toOption.map
      (fun o => (o.rows.length,
        decide (fsGet o.finalFs (o.stagingRoot ++ ["file_inventory.csv"]) =
          some (Entry.file (FileData.text (renderCSV o.rows)))))) =
    some (2, true) := by
  obtain ⟨o, ho⟩ : ∃ o, runIngest sampleHash (mkArgs Mode.copy true) twoDeviceChildren
      "2031" "NOW" [] = Except.ok o := ⟨_, rfl⟩
  have h := C3_amended sampleHash (mkArgs Mode.copy true) twoDeviceChildren
    "2031" "NOW" [] o 2 1 ho (by decide) (by decide) (by decide)
  rw [ho]
  simp [Except.toOption, h.1, h.2]

/-! ## Claim C4 — manifest hashes match the staged files -/

/-- C4 (counterexample): the claim says that in every placement mode,
including plan mode, the recorded hash equals the recomputed hash of the
file located at the entry's staged relative path.  In plan mode the
manifest is written (with the hash of the source), but no file exists at
the staged relative path at all, so there is nothing there to recompute:
running the spec's §8 example in plan mode with hashing on leaves the
first manifest entry's staged path (`CAM01/photo.jpg` under the staging
root) with no filesystem entry. -/
theorem C4_counterexample :
    (runIngest sampleHash (mkArgs Mode.plan true) twoDeviceChildren "2031" "NOW"
        []).toOption.map
      (fun o => (o.manifest.map Prod.snd, fsGet o.finalFs demoDest,
        resolveData o.finalFs (o.finalFs.length + 1) demoDest)) =
    some ([["ARU02", "clip.wav"], ["CAM01", "photo.jpg"]], none, none) := by decide

/-- C4 (amended): with hashing enabled, in the copy and symlink placement
modes (from a fresh staging subtree, with collision-free destinations,
no device labelled `logs`, and sources outside the staging subtree), the
manifest file is written containing one line per entry in the two-space
`hash  ./path` format, and every entry's recorded hash equals the hash of
the content found at the entry's staged relative path (following the
symlink in symlink mode); in plan mode the hash is that of the source
file and no file exists at the staged path. -/
theorem C4_amended (hashFn : List Nat → Nat) (args : Args)
    (children : List InputChild) (cy now : String) (fs0 : FS) (o : RunOutcome)
    (hm : args.mode = Mode.copy ∨ args.mode = Mode.symlink)
    (hhash : args.computeHash = true)
    (hne : discover_devices children ≠ [])
    (hfresh : ∀ p, rootOf args cy <+: p → fsGet fs0 p = none)
    (hnodup : ((jobsOf args (discover_devices children)).map
      (fun j => j.dest (rootOf args cy))).Nodup)
    (hrelne : ∀ j ∈ jobsOf args (discover_devices children), j.file.rel ≠ [])
    (hlogs : ∀ j ∈ jobsOf args (discover_devices children), j.label ≠ "logs")
    (hsrc : ∀ j ∈ jobsOf args (discover_devices children),
      fsGet fs0 j.src = some (Entry.file (FileData.bytes j.file.content)))
    (hdisj : ∀ j ∈ jobsOf args (discover_devices children),
      ¬ rootOf args cy <+: j.src)
    (h : runIngest hashFn args children cy now fs0 = Except.ok o) :
    fsGet o.finalFs (o.stagingRoot ++ ["manifest_sha256.txt"]) =
      some (Entry.file (FileData.text (renderManifest o.manifest))) ∧
    ∀ e ∈ o.manifest, ∃ bs,
      resolveData o.finalFs (o.finalFs.length + 1) (o.stagingRoot ++ e.2) =
        some (FileData.bytes bs) ∧ hashFn bs = e.1 := by
  have hstaged := runIngest_staged hashFn args children cy now fs0 o
    hfresh hnodup hrelne hlogs hdisj h
  rcases runIngest_ok_cases hashFn args children cy now fs0 o h with
    ⟨hd, _⟩ | ⟨_, st, hrun, ho⟩
  · exact absurd hd hne
  · have hmanval : st.manifest =
        manifestOf hashFn args (jobsOf args (discover_devices children)) := by
      rw [(processJobs_state hashFn args (rootOf args cy) _ _ _ hrun).2.2.1]
      simp [initState]
    subst ho
    constructor
    · rw [finalizeRun_stagingRoot, finalizeRun_manifest_val]
      exact finalizeRun_man args (rootOf args cy) now st hhash
    · intro e he
      rw [finalizeRun_manifest_val, hmanval] at he
      obtain ⟨j, hj, hok, hee⟩ := manifestOf_mem hashFn args _ e he
      subst hee
      obtain ⟨hdest, hsrcpres⟩ := hstaged j hj
      have hpath : (finalizeRun args (rootOf args cy) now st).stagingRoot ++
          ([j.label] ++ j.file.rel) = j.dest (rootOf args cy) := by
        rw [finalizeRun_stagingRoot]
        exact dest_eq_root_append (rootOf args cy) j
      rcases hm with hcopy | hsym
      · refine ⟨j.file.content, ?_, rfl⟩
        rw [hpath]
        apply resolve_one_step
        rw [hdest, hcopy]
        rfl
      · refine ⟨j.file.content, ?_, rfl⟩
        rw [hpath]
        apply resolve_two_step _ _ j.src
        · rw [hdest, hsym]
          rfl
        · rw [hsrcpres]
          exact hsrc j hj

/-- C4 (witness for the amended theorem): a copy-mode hashing run on the
spec's §8 example writes the manifest file and both staged paths resolve
to content. -/
theorem C4_amended_witness :
    (runIngest sampleHash (mkArgs Mode.copy true) twoDeviceChildren "2031" "NOW"
        twoDeviceSrcFS).toOption.map
      (fun o => (decide (fsGet o.finalFs (o.stagingRoot ++ ["manifest_sha256.txt"]) =
          some (Entry.file (FileData.text (renderManifest o.manifest)))),
        (resolveData o.finalFs (o.finalFs.length + 1)
          (o.stagingRoot ++ ["CAM01", "photo.jpg"])).isSome)) =
    some (true, true) := by
  obtain ⟨o, ho⟩ : ∃ o, runIngest sampleHash (mkArgs Mode.copy true) twoDeviceChildren
      "2031" "NOW" twoDeviceSrcFS = Except.ok o := ⟨_, rfl⟩
  have hfresh : ∀ p, rootOf (mkArgs Mode.copy true) "2031" <+: p →
      fsGet twoDeviceSrcFS p = none := by
    intro p hp
    by_cases h1 : p = ["home", "import", "camera_01", "photo.jpg"]
    · subst h1
      exact absurd hp (by decide)
    by_cases h2 : p = ["home", "import", "ARU_02", "clip.wav"]
    · subst h2
      exact absurd hp (by decide)
    have h1' : ["home", "import", "camera_01", "photo.jpg"] ≠ p := fun e => h1 e.symm
    have h2' : ["home", "import", "ARU_02", "clip.wav"] ≠ p := fun e => h2 e.symm
    simp [twoDeviceSrcFS, fsGet, h1', h2']
  have h := C4_amended sampleHash (mkArgs Mode.copy true) twoDeviceChildren
    "2031" "NOW" twoDeviceSrcFS o (Or.inl rfl) rfl (by decide) hfresh (by decide)
    (by decide) (by decide) (by decide) (by decide) ho
  have hman : o.manifest = [(sampleHash [4, 5], ["ARU02", "clip.wav"]),
      (sampleHash [1, 2, 3], ["CAM01", "photo.jpg"])] := by
    have h0 : (Except.ok o : Except String RunOutcome).toOption.map RunOutcome.manifest =
        some o.manifest := rfl
    rw [← ho] at h0
    rw [show (runIngest sampleHash (mkArgs Mode.copy true) twoDeviceChildren "2031" "NOW"
        twoDeviceSrcFS).toOption.map RunOutcome.manifest =
      some [(sampleHash [4, 5], ["ARU02", "clip.wav"]),
        (sampleHash [1, 2, 3], ["CAM01", "photo.jpg"])] from by decide] at h0
    exact (Option.some.inj h0).symm
  have hmem : (sampleHash [1, 2, 3], ["CAM01", "photo.jpg"]) ∈ o.manifest := by
    rw [hman]
    decide
  obtain ⟨bs, hres, _⟩ := h.2 _ hmem
  rw [ho]
  simp only [Except.toOption, Option.map, h.1, decide_eq_true_eq]
  rw [hres]
  simp

/-! ## Claim C6 — symlink-mode placement -/

/-- C6 (counterexample): the claim says any existing destination entry at
the staged path is replaced before linking.  A dangling symlink at the
destination is an existing destination entry, but `Path.exists()` follows
links and reports it absent, so it is not removed; `os.symlink` then
raises `FileExistsError`, which nothing catches: the run aborts instead
of replacing the entry. -/
theorem C6_counterexample :
    runIngest sampleHash (mkArgs Mode.symlink true) twoDeviceChildren "2031" "NOW"
      danglingFS = Except.error "FileExistsError" := rfl

/-- C6 (amended): in symlink mode, an existing destination entry that
resolves is removed and relinked, but a dangling symlink at a destination
makes the run abort with an uncaught `FileExistsError`; after a
successful run from a fresh staging subtree (collision-free destinations,
no device labelled `logs`, sources outside the staging subtree), every
staged path holds a symbolic link whose target is the original source
file's absolute path, and the link resolves to the source content. -/
theorem C6_amended (hashFn : List Nat → Nat) (args : Args)
    (children : List InputChild) (cy now : String) (fs0 : FS) (o : RunOutcome)
    (hm : args.mode = Mode.symlink)
    (hfresh : ∀ p, rootOf args cy <+: p → fsGet fs0 p = none)
    (hnodup : ((jobsOf args (discover_devices children)).map
      (fun j => j.dest (rootOf args cy))).Nodup)
    (hrelne : ∀ j ∈ jobsOf args (discover_devices children), j.file.rel ≠ [])
    (hlogs : ∀ j ∈ jobsOf args (discover_devices children), j.label ≠ "logs")
    (hsrc : ∀ j ∈ jobsOf args (discover_devices children),
      fsGet fs0 j.src = some (Entry.file (FileData.bytes j.file.content)))
    (hdisj : ∀ j ∈ jobsOf args (discover_devices children),
      ¬ rootOf args cy <+: j.src)
    (h : runIngest hashFn args children cy now fs0 = Except.ok o) :
    ∀ j ∈ jobsOf args (discover_devices children),
      fsGet o.finalFs (j.dest (rootOf args cy)) = some (Entry.symlink j.src) ∧
      resolveData o.finalFs (o.finalFs.length + 1) (j.dest (rootOf args cy)) =
        some (FileData.bytes j.file.content) := by
  intro j hj
  obtain ⟨hdest, hsrcpres⟩ := runIngest_staged hashFn args children cy now fs0 o
    hfresh hnodup hrelne hlogs hdisj h j hj
  have hdest' : fsGet o.finalFs (j.dest (rootOf args cy)) =
      some (Entry.symlink j.src) := by
    rw [hdest, hm]
    rfl
  refine ⟨hdest', resolve_two_step _ _ j.src _ hdest' ?_⟩
  rw [hsrcpres]
  exact hsrc j hj

/-- C6 (witness for the amended theorem): a symlink-mode run on the
spec's §8 example stages `CAM01/photo.jpg` as a link to the source and
the link resolves to the source bytes. -/
theorem C6_amended_witness :
    (runIngest sampleHash (mkArgs Mode.symlink true) twoDeviceChildren "2031" "NOW"
        twoDeviceSrcFS).toOption.map
      (fun o => (fsGet o.finalFs demoDest,
        resolveData o.finalFs (o.finalFs.length + 1) demoDest)) =
    some (some (Entry.symlink ["home", "import", "camera_01", "photo.jpg"]),
      some (FileData.bytes [1, 2, 3])) := by
  obtain ⟨o, ho⟩ : ∃ o, runIngest sampleHash (mkArgs Mode.symlink true) twoDeviceChildren
      "2031" "NOW" twoDeviceSrcFS = Except.ok o := ⟨_, rfl⟩
  have hfresh : ∀ p, rootOf (mkArgs Mode.symlink true) "2031" <+: p →
      fsGet twoDeviceSrcFS p = none := by
    intro p hp
    by_cases h1 : p = ["home", "import", "camera_01", "photo.jpg"]
    · subst h1
      exact absurd hp (by decide)
    by_cases h2 : p = ["home", "import", "ARU_02", "clip.wav"]
    · subst h2
      exact absurd hp (by decide)
    have h1' : ["home", "import", "camera_01", "photo.jpg"] ≠ p := fun e => h1 e.symm
    have h2' : ["home", "import", "ARU_02", "clip.wav"] ≠ p := fun e => h2 e.symm
    simp [twoDeviceSrcFS, fsGet, h1', h2']
  have hj : (⟨["home", "import", "camera_01"], "CAM01", "camera",
      { rel := ["photo.jpg"], content := [1, 2, 3], statOk := true,
        size := 10, mtime := "2025-09-05T00:00:00+00:00", hashOk := true }⟩ : Job) ∈
      jobsOf (mkArgs Mode.symlink true) (discover_devices twoDeviceChildren) := by decide
  have h := C6_amended sampleHash (mkArgs Mode.symlink true) twoDeviceChildren
    "2031" "NOW" twoDeviceSrcFS o rfl hfresh (by decide) (by decide) (by decide)
    (by decide) (by decide) ho _ hj
  rw [ho]
  simp only [Except.toOption, Option.map]
  rw [show demoDest = Job.dest (rootOf (mkArgs Mode.symlink true) "2031")
      ⟨["home", "import", "camera_01"], "CAM01", "camera",
        { rel := ["photo.jpg"], content := [1, 2, 3], statOk := true,
          size := 10, mtime := "2025-09-05T00:00:00+00:00", hashOk := true }⟩ from by decide]
  rw [h.1, h.2]
  rfl

/-! ## Claim C7 — plan mode leaves only the artifacts -/

/-- C7: in plan mode the placement step mutates nothing, while metadata
is still recorded for every walked file; starting from a staging subtree
with no entries, after the run the only paths under the staging root
holding a filesystem entry are the inventory CSV, the run log, and — only
when hashing is enabled — the manifest. -/
theorem C7_plan_mode (hashFn : List Nat → Nat) (args : Args)
    (children : List InputChild) (cy now : String) (fs0 : FS) (o : RunOutcome)
    (hm : args.mode = Mode.plan)
    (hfresh : ∀ p, rootOf args cy <+: p → fsGet fs0 p = none)
    (h : runIngest hashFn args children cy now fs0 = Except.ok o) :
    o.rows.length = (jobsOf args (discover_devices children)).length ∧
    ∀ p e, fsGet o.finalFs p = some e → rootOf args cy <+: p →
      p = rootOf args cy ++ ["file_inventory.csv"] ∨
      p = rootOf args cy ++ ["logs", "ingest.log"] ∨
      (args.computeHash = true ∧ p = rootOf args cy ++ ["manifest_sha256.txt"]) := by
  rcases runIngest_ok_cases hashFn args children cy now fs0 o h with
    ⟨hd, ho⟩ | ⟨_, st, hrun, ho⟩
  · subst ho
    constructor
    · rw [hd]
      simp [earlyOutcome, jobsOf]
    · intro p e hp hroot
      rw [show (earlyOutcome (rootOf args cy) fs0).finalFs = fs0 from rfl,
        hfresh p hroot] at hp
      cases hp
  · obtain ⟨st2, hrun2, hfs⟩ := processJobs_plan_fs hashFn args (rootOf args cy) hm
      (jobsOf args (discover_devices children)) (initState fs0)
    rw [hrun] at hrun2
    injection hrun2 with hst
    subst hst
    subst ho
    constructor
    · rw [finalizeRun_rows,
        (processJobs_state hashFn args (rootOf args cy) _ _ _ hrun).1]
      simp [initState]
    · intro p e hp hroot
      by_cases h1 : p = rootOf args cy ++ ["file_inventory.csv"]
      · exact Or.inl h1
      by_cases h3 : p = rootOf args cy ++ ["logs", "ingest.log"]
      · exact Or.inr (Or.inl h3)
      by_cases h2 : p = rootOf args cy ++ ["manifest_sha256.txt"]
      · by_cases hc : args.computeHash = true
        · exact Or.inr (Or.inr ⟨hc, h2⟩)
        · exfalso
          rw [finalizeRun_frame_noHash args (rootOf args cy) now st p
            (Bool.eq_false_iff.mpr hc) h1 h3] at hp
          rw [hfs] at hp
          rw [show (initState fs0).fs = fs0 from rfl, hfresh p hroot] at hp
          cases hp
      · exfalso
        rw [finalizeRun_frame args (rootOf args cy) now st p h1 h2 h3] at hp
        rw [hfs] at hp
        rw [show (initState fs0).fs = fs0 from rfl, hfresh p hroot] at hp
        cases hp

/-- C7 (witness): a plan-mode hashing run on the spec's §8 example from
an empty filesystem records both rows and leaves no entry at the staged
destination path. -/
theorem C7_plan_mode_witness :
    (runIngest sampleHash (mkArgs Mode.plan true) twoDeviceChildren "2031" "NOW"
        []).toOption.map
      (fun o => (o.rows.length, fsGet o.finalFs demoDest)) = some (2, none) := by
  obtain ⟨o, ho⟩ : ∃ o, runIngest sampleHash (mkArgs Mode.plan true) twoDeviceChildren
      "2031" "NOW" [] = Except.ok o := ⟨_, rfl⟩
  have h := C7_plan_mode sampleHash (mkArgs Mode.plan true) twoDeviceChildren
    "2031" "NOW" [] o rfl (fun p _ => rfl) ho
  have hrows : o.rows.length = 2 := by
    rw [h.1]
    decide
  have hnone : fsGet o.finalFs demoDest = none := by
    cases hq : fsGet o.finalFs demoDest with
    | none => rfl
    | some e =>
      rcases h.2 demoDest e hq (by decide) with h1 | h3 | ⟨_, h2⟩
      · exact absurd h1 (by decide)
      · exact absurd h3 (by decide)
      · exact absurd h2 (by decide)
  rw [ho]
  simp [Except.toOption, hrows, hnone]

/-! ## String-level lemmas for the normalization and path claims -/

theorem digit_beq_false (a c : Char) (ha : a.isDigit = false) (h : c.isDigit = true) :
    (a == c) = false := by
  have hne := digit_ne c a ha h
  simp only [beq_eq_false_iff_ne, ne_eq]
  exact fun e => hne e.symm

theorem map_id_of {f : Char → Char} (xs : List Char) (h : ∀ c ∈ xs, f c = c) :
    xs.map f = xs := by
  induction xs with
  | nil => rfl
  | cons a t ih =>
    rw [List.map_cons, h a (List.mem_cons_self a t),
      ih (fun c hc => h c (List.mem_cons_of_mem a hc))]

theorem dropWhile_all_false (p : Char → Bool) (xs : List Char)
    (h : ∀ c ∈ xs, p c = false) : xs.dropWhile p = xs := by
  cases xs with
  | nil => rfl
  | cons a t =>
    rw [List.dropWhile_cons, h a (List.mem_cons_self a t)]
    simp

theorem pyStrip_no_space (xs : List Char) (h : ∀ c ∈ xs, isSpaceChar c = false) :
    pyStrip xs = xs := by
  unfold pyStrip
  rw [dropWhile_all_false isSpaceChar xs h,
    dropWhile_all_false isSpaceChar xs.reverse (fun c hc => h c (List.mem_reverse.mp hc)),
    List.reverse_reverse]

theorem replaceChar_id (a b : Char) (xs : List Char) (h : ∀ c ∈ xs, c ≠ a) :
    pyReplaceChar a b xs = xs := by
  unfold pyReplaceChar
  apply map_id_of
  intro c hc
  rw [if_neg (h c hc)]

theorem isPrefixOf_cons_false (a : Char) (s : List Char) (y : Char) (t : List Char)
    (h : (a == y) = false) : (a :: s).isPrefixOf (y :: t) = false := by
  show (a == y && s.isPrefixOf t) = false
  rw [h]
  rfl

theorem isPrefixOf_digits_false (sep0 : Char) (sep : List Char)
    (h0 : sep0.isDigit = false) (ys : List Char)
    (hall : ∀ c ∈ ys, c.isDigit = true) :
    (sep0 :: sep).isPrefixOf ys = false := by
  cases ys with
  | nil => rfl
  | cons y t =>
    exact isPrefixOf_cons_false sep0 sep y t
      (digit_beq_false sep0 y h0 (hall y (List.mem_cons_self y t)))

theorem pySplitIdx1_digits (sep0 : Char) (sep : List Char) (h0 : sep0.isDigit = false)
    (ds : List Char) (hall : ∀ c ∈ ds, c.isDigit = true) :
    pySplitIdx1 (sep0 :: sep) ((sep0 :: sep) ++ ds) = ds := by
  unfold pySplitIdx1
  rw [pySplit_sep_head (sep0 :: sep) ds (by simp)
    (fun n => isPrefixOf_digits_false sep0 sep h0 (ds.drop n)
      (fun c hc => hall c (List.mem_of_mem_drop hc)))]
  rfl

theorem sdsCRootPath_not_absolute (s : String) : (sdsCRootPath s).absolute = false := by
  unfold sdsCRootPath pathOfString
  show "/".data.isPrefixOf (pyStripChar '/' s.data) = false
  cases he : pyStripChar '/' s.data with
  | nil => rfl
  | cons h t =>
    have hne := stripChar_head_ne '/' s.data h t he
    apply isPrefixOf_cons_false
    simp only [beq_eq_false_iff_ne, ne_eq]
    intro e
    exact (hne ▸ (e.symm : h = '/') : False)

theorem pyIsDigit_plainSeg (cs : List Char) (h : pyIsDigit cs = true) :
    plainSeg (String.mk cs) := by
  unfold pyIsDigit at h
  rw [Bool.and_eq_true] at h
  obtain ⟨h1, h2⟩ := h
  have hall : ∀ c ∈ cs, c.isDigit = true := fun c hc => by
    have := List.all_eq_true.mp h2 c hc
    simpa using this
  refine ⟨?_, ?_, ?_⟩
  · intro e
    have hd := congrArg String.data e
    simp only at hd
    rw [hd] at h1
    cases h1
  · intro e
    have hd := congrArg String.data e
    simp only at hd
    have : ('.' : Char).isDigit = true := by
      apply hall
      rw [hd]
      exact List.mem_cons_self _ _
    cases this
  · intro hmem
    have := hall '/' hmem
    cases this

end Ingest
namespace Ingest

theorem norm_camera_digits (ds : List Char) (hall : ∀ c ∈ ds, c.isDigit = true)
    (hlen : 2 ≤ ds.length) :
    norm_device_label (String.mk ("camera_".data ++ ds)) =
      String.mk ("CAM".data ++ ds) := by
  have hnospace : ∀ c ∈ "camera_".data ++ ds, isSpaceChar c = false := by
    intro c hc
    rcases List.mem_append.mp hc with hl | hr
    · fin_cases hl <;> decide
    · exact digit_isSpace c (hall c hr)
  have hnodash : ∀ c ∈ "camera_".data ++ ds, c ≠ '-' := by
    intro c hc
    rcases List.mem_append.mp hc with hl | hr
    · fin_cases hl <;> decide
    · exact digit_ne c '-' (by decide) (hall c hr)
  have hlower : pyLower ("camera_".data ++ ds) = "camera_".data ++ ds := by
    unfold pyLower
    rw [List.map_append]
    rw [show "camera_".data.map Char.toLower = "camera_".data from by decide]
    rw [map_id_of ds (fun c hc => digit_toLower c (hall c hc))]
  have hne : ds ≠ [] := by
    intro e
    rw [e] at hlen
    exact absurd hlen (by decide)
  have hdata : (String.mk ("camera_".data ++ ds)).data = "camera_".data ++ ds := rfl
  have hstrip := pyStrip_no_space _ hnospace
  have hrep := replaceChar_id '-' '_' _ hnodash
  have hpre : "camera_".data.isPrefixOf ("camera_".data ++ ds) = true :=
    isPrefixOf_append_self _ _
  have htail : pySplitIdx1 "camera_".data ("camera_".data ++ ds) = ds := by
    rw [show "camera_".data = 'c' :: "amera_".data from by decide]
    exact pySplitIdx1_digits 'c' "amera_".data (by decide) ds hall
  have hdig : pyIsDigit ds = true := by
    unfold pyIsDigit
    rw [Bool.and_eq_true]
    refine ⟨?_, ?_⟩
    · cases ds with
      | nil => exact absurd rfl hne
      | cons a t => rfl
    · exact List.all_eq_true.mpr (fun c hc => by simpa using hall c hc)
  have hz : zfill 2 ds = ds := by
    unfold zfill
    rw [Nat.sub_eq_zero_of_le hlen]
    rfl
  unfold norm_device_label
  simp only [hdata, hstrip, hrep, hlower, hpre, if_true, htail, hdig, hz]

end Ingest

namespace Ingest

theorem norm_CAM_digits (ds : List Char) (hall : ∀ c ∈ ds, c.isDigit = true)
    (hne : ds ≠ []) :
    norm_device_label (String.mk ("CAM".data ++ ds)) = String.mk ("CAM".data ++ ds) := by
  obtain ⟨d, t, hds⟩ : ∃ d t, ds = d :: t := by
    cases ds with
    | nil => exact absurd rfl hne
    | cons d t => exact ⟨d, t, rfl⟩
  have hd : d.isDigit = true := hall d (by rw [hds]; exact List.mem_cons_self d t)
  have hnospace : ∀ c ∈ "CAM".data ++ ds, isSpaceChar c = false := by
    intro c hc
    rcases List.mem_append.mp hc with hl | hr
    · fin_cases hl <;> decide
    · exact digit_isSpace c (hall c hr)
  have hnodash : ∀ c ∈ "CAM".data ++ ds, c ≠ '-' := by
    intro c hc
    rcases List.mem_append.mp hc with hl | hr
    · fin_cases hl <;> decide
    · exact digit_ne c '-' (by decide) (hall c hr)
  have hnosp2 : ∀ c ∈ "CAM".data ++ ds, c ≠ ' ' := by
    intro c hc
    rcases List.mem_append.mp hc with hl | hr
    · fin_cases hl <;> decide
    · exact digit_ne c ' ' (by decide) (hall c hr)
  have hlower : pyLower ("CAM".data ++ ds) = "cam".data ++ ds := by
    unfold pyLower
    rw [List.map_append, show "CAM".data.map Char.toLower = "cam".data from by decide,
      map_id_of ds (fun c hc => digit_toLower c (hall c hc))]
  have hb1 : "camera_".data.isPrefixOf ("cam".data ++ ds) = false := by
    rw [hds]
    show (('e' == d) && "ra_".data.isPrefixOf t) = false
    rw [digit_beq_false 'e' d (by decide) hd]
    rfl
  have hb2 : "aru_".data.isPrefixOf ("cam".data ++ ds) = false := rfl
  have hb3 : "camera".data.isPrefixOf ("cam".data ++ ds) = false := by
    rw [hds]
    show (('e' == d) && "ra".data.isPrefixOf t) = false
    rw [digit_beq_false 'e' d (by decide) hd]
    rfl
  have hb4 : "aru".data.isPrefixOf ("cam".data ++ ds) = false := rfl
  unfold norm_device_label
  simp only [show (String.mk ("CAM".data ++ ds)).data = "CAM".data ++ ds from rfl,
    pyStrip_no_space _ hnospace, replaceChar_id '-' '_' _ hnodash, hlower,
    hb1, hb2, hb3, hb4, Bool.false_eq_true, if_false,
    replaceChar_id ' ' '_' _ hnosp2]

end Ingest

namespace Ingest

/-- C8 (counterexample): the claim says normalizing twice yields the same
label as normalizing once.  For the folder name `camera_era` the first
normalization gives `CAMERA`, but renormalizing `CAMERA` matches the bare
`camera` prefix with an empty tail and collapses to `CAM`, so
normalization is not idempotent. -/
theorem C8_counterexample :
    norm_device_label "camera_era" = "CAMERA" ∧
    norm_device_label (norm_device_label "camera_era") = "CAM" ∧
    norm_device_label (norm_device_label "camera_era") ≠
      norm_device_label "camera_era" := by decide

/-- C8 (amended): device label normalization is deterministic — equal
inputs always produce equal labels — and idempotent on standard numeric
device folder names (`camera_` followed by at least two digits, whose
label `CAM<digits>` renormalizes to itself), but it is not idempotent for
every folder name. -/
theorem C8_amended :
    (∀ s t : String, s = t → norm_device_label s = norm_device_label t) ∧
    (∀ ds : List Char, (∀ c ∈ ds, c.isDigit = true) → 2 ≤ ds.length →
      norm_device_label (norm_device_label (String.mk ("camera_".data ++ ds))) =
        norm_device_label (String.mk ("camera_".data ++ ds))) := by
  constructor
  · intro s t e
    rw [e]
  · intro ds hall hlen
    have hne : ds ≠ [] := by
      intro e
      rw [e] at hlen
      exact absurd hlen (by decide)
    rw [norm_camera_digits ds hall hlen, norm_CAM_digits ds hall hne]

/-- C8 (witness for the amended theorem): instantiated at `camera_01`,
both determinism and idempotence hold. -/
theorem C8_amended_witness :
    norm_device_label "camera_01" = norm_device_label "camera_01" ∧
    norm_device_label (norm_device_label "camera_01") =
      norm_device_label "camera_01" := by
  constructor
  · exact C8_amended.1 "camera_01" "camera_01" rfl
  · have e : String.mk ("camera_".data ++ ['0', '1']) = "camera_01" := by decide
    have h := C8_amended.2 ['0', '1'] (by decide) (by decide)
    rw [e] at h
    exact h

/-- C9 (counterexample): the claim says every device whose normalized
label starts with CAM is typed `camera`.  A folder named `CAM01` gets the
label `CAM01` — which starts with CAM, and `guess_device_type` would call
it a camera — yet `discover_devices` types it `unknown`, because the
folder name itself matches no accepted prefix. -/
theorem C9_counterexample :
    (discover_devices camFolderChildren).map (fun d => (d.2.1, d.2.2)) =
      [("CAM01", "unknown")] ∧
    guess_device_type "CAM01" = "camera" ∧
    "CAM".data.isPrefixOf (pyUpper "CAM01".data) = true := by decide

/-- C9 (amended): for every discovered device the label is the
normalization of the folder name, and the type is inferred from the
label's prefix via `guess_device_type` only for folders whose lowercased
name starts with an accepted device prefix; every other folder is typed
`unknown`, even when its normalized label starts with CAM or ARU. -/
theorem C9_amended (children : List InputChild) (d : InputChild × String × String)
    (hmem : d ∈ discover_devices children) :
    d.2.1 = norm_device_label d.1.name ∧
    (devicePrefixMatch d.1.name = true → d.2.2 = guess_device_type d.2.1) ∧
    (devicePrefixMatch d.1.name = false → d.2.2 = "unknown") := by
  unfold discover_devices at hmem
  obtain ⟨c, hc, he⟩ := List.mem_filterMap.mp hmem
  by_cases hdir : c.isDir = true
  · rw [if_neg (by rw [hdir]; exact Bool.not_eq_true _ ▸ (by simp))] at he
    by_cases hpm : devicePrefixMatch c.name = true
    · rw [if_pos hpm] at he
      injection he with he
      subst he
      refine ⟨rfl, fun _ => rfl, fun hf => ?_⟩
      rw [hpm] at hf
      cases hf
    · rw [if_neg hpm] at he
      injection he with he
      subst he
      refine ⟨rfl, fun ht => ?_, fun _ => rfl⟩
      rw [ht] at hpm
      exact absurd rfl hpm
  · rw [if_pos (by simp [Bool.not_eq_true] at hdir ⊢; exact hdir)] at he
    cases he

/-- C9 (witness for the amended theorem): the folder `CAM01` matches no
accepted prefix and the amended theorem types it `unknown`. -/
theorem C9_amended_witness :
    (((⟨"CAM01", true, []⟩ : InputChild), "CAM01", "unknown") ∈
      discover_devices camFolderChildren) ∧
    devicePrefixMatch "CAM01" = false ∧
    (((⟨"CAM01", true, []⟩ : InputChild), "CAM01", ("unknown" : String)).2.2 =
      "unknown") := by
  refine ⟨by decide, by decide, ?_⟩
  exact (C9_amended camFolderChildren _ (by decide)).2.2 (by decide)

/-- C5: for every combination of staging base, remote-root value,
reserve, site and deployment id (the path components being single
slash-free segments, as the spec's path formula reads them), the computed
staging root equals the spec's formula `staging_base / remote_root / year
/ reserve / site / Deployment_<id>`, where year is the first four
characters of the deployment identifier when there are four and they are
numeric, and otherwise the current year. -/
theorem C5_staging_root (base : PyPath)
    (sdsCRoot reserve site deployment currentYear : String)
    (hr : plainSeg reserve) (hs : plainSeg site) (hy : plainSeg currentYear)
    (hd : '/' ∉ deployment.data) :
    make_staging_root base (sdsCRootPath sdsCRoot)
      (deriveYear deployment currentYear) reserve site deployment =
    stagingRootSpec base (sdsCRootPath sdsCRoot) deployment currentYear reserve site := by
  have hrem : (sdsCRootPath sdsCRoot).absolute = false :=
    sdsCRootPath_not_absolute sdsCRoot
  have hyear : pathOfString (deriveYear deployment currentYear) =
      ⟨false, [deriveYear deployment currentYear]⟩ := by
    unfold deriveYear
    split
    · next hcond =>
      exact pathOfString_plain _ (pyIsDigit_plainSeg _ hcond.2)
    · exact pathOfString_plain _ hy
  have hres := pathOfString_plain reserve hr
  have hsite := pathOfString_plain site hs
  have hdep : pathOfString ("Deployment_" ++ deployment) =
      ⟨false, ["Deployment_" ++ deployment]⟩ := by
    apply pathOfString_plain
    refine ⟨?_, ?_, ?_⟩
    · intro e
      have hlen : ("Deployment_" ++ deployment).data.length = 0 := by rw [e]; rfl
      rw [String.data_append,
        show "Deployment_".data = 'D' :: "eployment_".data from by decide] at hlen
      simp at hlen
    · intro e
      have hh : ("Deployment_" ++ deployment).data.headD ' ' = '.' := by rw [e]; rfl
      rw [String.data_append,
        show "Deployment_".data = 'D' :: "eployment_".data from by decide] at hh
      simp at hh
    · intro hmem
      rw [String.data_append] at hmem
      rcases List.mem_append.mp hmem with hl | hr2
      · exact absurd hl (by decide)
      · exact hd hr2
  unfold make_staging_root joinList stagingRootSpec
  simp only [List.foldl]
  rw [hyear, hres, hsite, hdep]
  unfold joinpath
  simp only [hrem, Bool.false_eq_true, if_false]
  unfold deriveYear
  simp [List.append_assoc]

/-- C5 (witness): the spec's §8 example values instantiate the staging
root equation. -/
theorem C5_staging_root_witness :
    plainSeg "R034" ∧ plainSeg "S005" ∧ plainSeg "2031" ∧
    make_staging_root ⟨true, ["home", "staging"]⟩
      (sdsCRootPath "/expanse/projects/ucnrs-ssn/raw")
      (deriveYear "20250905" "2031") "R034" "S005" "20250905" =
    stagingRootSpec ⟨true, ["home", "staging"]⟩
      (sdsCRootPath "/expanse/projects/ucnrs-ssn/raw")
      "20250905" "2031" "R034" "S005" :=
  ⟨⟨by decide, by decide, by decide⟩, ⟨by decide, by decide, by decide⟩,
    ⟨by decide, by decide, by decide⟩,
    C5_staging_root ⟨true, ["home", "staging"]⟩ "/expanse/projects/ucnrs-ssn/raw"
      "R034" "S005" "20250905" "2031" ⟨by decide, by decide, by decide⟩
      ⟨by decide, by decide, by decide⟩ ⟨by decide, by decide, by decide⟩ (by decide)⟩

/-- C10: for every value of the remote-root (`--sdsC-root`) argument,
leading and trailing slashes are stripped and the remainder is treated as
relative path segments joined under the staging base: the stripped remote
root is never an absolute path, so the computed staging root keeps the
staging base's absoluteness and its segments extend the staging base's
segments — an absolute remote-root value never redirects staging outside
the staging base's subtree as an absolute destination. -/
theorem C10_remote_root_contained (base : PyPath)
    (s year reserve site deployment : String)
    (hy : (pathOfString year).absolute = false)
    (hr : (pathOfString reserve).absolute = false)
    (hsite : (pathOfString site).absolute = false) :
    (sdsCRootPath s).absolute = false ∧
    (make_staging_root base (sdsCRootPath s) year reserve site deployment).absolute
      = base.absolute ∧
    base.segs <+:
      (make_staging_root base (sdsCRootPath s) year reserve site deployment).segs := by
  have hrem := sdsCRootPath_not_absolute s
  have hdep : (pathOfString ("Deployment_" ++ deployment)).absolute = false := by
    unfold pathOfString
    show "/".data.isPrefixOf ("Deployment_" ++ deployment).data = false
    rw [String.data_append]
    rfl
  refine ⟨hrem, ?_, ?_⟩
  · unfold make_staging_root joinList
    simp only [List.foldl]
    unfold joinpath
    simp only [hrem, hy, hr, hsite, hdep, Bool.false_eq_true, if_false]
  · unfold make_staging_root joinList
    simp only [List.foldl]
    unfold joinpath
    simp only [hrem, hy, hr, hsite, hdep, Bool.false_eq_true, if_false]
    simp only [List.append_assoc]
    exact List.prefix_append _ _

/-- C10 (witness): with the absolute default remote root
`/expanse/projects/ucnrs-ssn/raw`, the staging root stays under the
staging base. -/
theorem C10_remote_root_contained_witness :
    ((pathOfString "2025").absolute = false ∧
      (pathOfString "R034").absolute = false ∧
      (pathOfString "S005").absolute = false) ∧
    (sdsCRootPath "/expanse/projects/ucnrs-ssn/raw").absolute = false ∧
    (make_staging_root ⟨true, ["home", "staging"]⟩
      (sdsCRootPath "/expanse/projects/ucnrs-ssn/raw")
      "2025" "R034" "S005" "20250905").absolute = true ∧
    ["home", "staging"] <+: (make_staging_root ⟨true, ["home", "staging"]⟩
      (sdsCRootPath "/expanse/projects/ucnrs-ssn/raw")
      "2025" "R034" "S005" "20250905").segs := by
  have h := C10_remote_root_contained ⟨true, ["home", "staging"]⟩
    "/expanse/projects/ucnrs-ssn/raw" "2025" "R034" "S005" "20250905"
    (by decide) (by decide) (by decide)
  exact ⟨⟨by decide, by decide, by decide⟩, h.1, h.2.1, h.2.2⟩

end Ingest
